import Mathlib

/-!
# Verification of the `motor-database` build pipeline

Shallow embedding of `src/scripts/build_database.py` (the final revision of
the database builder).  Python strings are modelled as `List Char`, Python
`float` arithmetic as exact rational arithmetic over `ℚ` (all the verified
properties are exact identities, not rounding facts), Python `None`/missing
dictionary keys as `Option`, and Python per-record exceptions as
`Except Unit`.  Dictionaries used as lookup tables are modelled as
association lists queried through `find?`.
-/

/-- Python strings, modelled as lists of characters. -/
abbrev Str := List Char

/-- Coerce a Lean string literal to the `Str` model. -/
def chars (s : String) : Str := s.data

/-- Association-list lookup, modelling Python `dict.get` / `x in d`. -/
def find? {α β : Type} [DecidableEq α] : List (α × β) → α → Option β
  | [], _ => none
  | (k, v) :: rest, a => if a = k then some v else find? rest a

/-- Python truthiness of an optional string: `None` and `""` are falsy. -/
def strTruthy : Option Str → Bool
  | some s => !s.isEmpty
  | none => false

/-- `str.lower()` (ASCII, which is all the build's tokens use). -/
def pyLower (s : Str) : Str := s.map Char.toLower

/-- `str.strip()`: drop leading and trailing whitespace. -/
def pyStrip (s : Str) : Str :=
  ((s.dropWhile Char.isWhitespace).reverse.dropWhile Char.isWhitespace).reverse

/-- `str.replace('_', ' ')`. -/
def replaceUnderscores (s : Str) : Str :=
  s.map fun c => if c = '_' then ' ' else c

/-- Helper for `splitWords`: accumulates the current word (reversed). -/
def splitWordsAux : Str → Str → List Str
  | [], acc => if acc.isEmpty then [] else [acc.reverse]
  | c :: rest, acc =>
    if c.isWhitespace then
      if acc.isEmpty then splitWordsAux rest []
      else acc.reverse :: splitWordsAux rest []
    else splitWordsAux rest (c :: acc)

/-- Python `str.split()` with no argument: split on runs of whitespace,
no empty words. -/
def splitWords (s : Str) : List Str := splitWordsAux s []

/-- `" ".join(parts)`. -/
def joinSpace (parts : List Str) : Str := List.intercalate [' '] parts

/-- Numeric value of a digit string. -/
def digitsVal (ds : Str) : ℕ := ds.foldl (fun acc c => acc * 10 + (c.toNat - 48)) 0

/-- Parse an optional exponent sign and digit string (after `e`/`E`). -/
def parseExpPart (s : Str) : Option ℤ :=
  match s with
  | '+' :: rest => if rest ≠ [] ∧ rest.all Char.isDigit then some (digitsVal rest) else none
  | '-' :: rest => if rest ≠ [] ∧ rest.all Char.isDigit then some (-(digitsVal rest : ℤ)) else none
  | _ => if s ≠ [] ∧ s.all Char.isDigit then some (digitsVal s) else none

/-- Value of the fractional digit string `frac` (the digits after `.`). -/
def fracVal (frac : Str) : ℚ := (digitsVal frac : ℚ) / (10 : ℚ) ^ frac.length

/-- Parse an unsigned decimal literal `digits[.digits][e[±]digits]`,
`.digits[...]` or `digits.[...]` — the `float(<str>)` forms produced by the
two motor file formats (special values such as `inf`/`nan` and digit-group
underscores are outside the model). -/
def parseUnsigned (s : Str) : Option ℚ :=
  let intPart := s.takeWhile Char.isDigit
  let rest := s.dropWhile Char.isDigit
  match rest with
  | [] => if intPart.isEmpty then none else some (digitsVal intPart : ℚ)
  | '.' :: rest2 =>
    let frac := rest2.takeWhile Char.isDigit
    let rest3 := rest2.dropWhile Char.isDigit
    if intPart.isEmpty ∧ frac.isEmpty then none
    else
      match rest3 with
      | [] => some ((digitsVal intPart : ℚ) + fracVal frac)
      | e :: rest4 =>
        if e = 'e' ∨ e = 'E' then
          (parseExpPart rest4).map fun k => ((digitsVal intPart : ℚ) + fracVal frac) * (10 : ℚ) ^ k
        else none
  | e :: rest4 =>
    if (e = 'e' ∨ e = 'E') ∧ !intPart.isEmpty then
      (parseExpPart rest4).map fun k => (digitsVal intPart : ℚ) * (10 : ℚ) ^ k
    else none

/-- Python `float(<str>)`: optional surrounding whitespace, optional sign,
then an unsigned decimal literal; `none` models a raised `ValueError`. -/
def parseFloat (s : Str) : Option ℚ :=
  match pyStrip s with
  | '+' :: r => parseUnsigned r
  | '-' :: r => (parseUnsigned r).map Neg.neg
  | t => parseUnsigned t

/-- Helper for `impulseLoop`: accumulate trapezoids, carrying the previous
point. -/
def impulseLoopAux (prev : ℚ × ℚ) : List (ℚ × ℚ) → ℚ
  | [] => 0
  | b :: rest => (b.2 + prev.2) / 2 * (b.1 - prev.1) + impulseLoopAux b rest

/-- The trapezoid accumulation loop of `calculate_thrust_stats`
(`for i in range(1, len(points)): impulse += (f[i]+f[i-1])/2 * (t[i]-t[i-1])`). -/
def impulseLoop : List (ℚ × ℚ) → ℚ
  | [] => 0
  | a :: rest => impulseLoopAux a rest

/-- `calculate_thrust_stats` (build_database.py, lines 438–455): returns
`(impulse, avg_thrust, max_thrust, burn_time)`. -/
def calculate_thrust_stats (points : List (ℚ × ℚ)) : ℚ × ℚ × ℚ × ℚ :=
  match points with
  | [] => (0, 0, 0, 0)
  | p :: ps =>
    let burn_time := (List.getLast (p :: ps) (List.cons_ne_nil p ps)).1
    let max_thrust := ps.foldl (fun acc q => max acc q.2) p.2
    let impulse := if (p :: ps).length > 1 then impulseLoop (p :: ps) else 0
    let avg_thrust := if burn_time > 0 then impulse / burn_time else 0
    (impulse, avg_thrust, max_thrust, burn_time)

/-- The claim-side trapezoidal sum: sum over consecutive pairs of
`(f[i]+f[i-1])/2 * (t[i]-t[i-1])`. -/
def trapSum (points : List (ℚ × ℚ)) : ℚ :=
  (List.zipWith (fun a b => (b.2 + a.2) / 2 * (b.1 - a.1)) points points.tail).sum

/-- The transient per-motor header dictionary produced by both parsers
(`try_header` in `parse_rasp_all` and the engine loop in `parse_rse_all`).
Both parsers populate every key, so non-optional fields are plain values;
`delays` is `Option` because the source stores `None` for absent delays.
Weights are in grams. -/
structure ParsedMeta where
  common_name : Str
  designation : Str
  diameter : ℚ
  length : ℚ
  delays : Option Str
  prop_weight : ℚ
  total_weight : ℚ
  manufacturer : Str
  mtype : Str
  deriving DecidableEq, Repr

/-- `try_header` (build_database.py, lines 477–490): a RASP header needs
≥7 whitespace tokens; the delay token `"0"`, `"P"` or `"p"` means no delay;
weights are kilogram tokens multiplied by 1000 (grams); the manufacturer is
the remaining tokens joined by single spaces.  `none` models the
`ValueError` path (a numeric field that fails `float()`). -/
def try_header (parts : List Str) : Option ParsedMeta :=
  if parts.length < 7 then none
  else
    match parseFloat (parts.getD 1 []), parseFloat (parts.getD 2 []),
          parseFloat (parts.getD 4 []), parseFloat (parts.getD 5 []) with
    | some dia, some length, some pw, some tw =>
      some
        { common_name := parts.getD 0 []
          designation := parts.getD 0 []
          diameter := dia
          length := length
          delays :=
            if parts.getD 3 [] = chars "0" ∨ parts.getD 3 [] = chars "P" ∨
               parts.getD 3 [] = chars "p" then none
            else some (parts.getD 3 [])
          prop_weight := pw * 1000
          total_weight := tw * 1000
          manufacturer := joinSpace (parts.drop 6)
          mtype := chars "SU" }
    | _, _, _, _ => none

/-- The loop state of `parse_rasp_all`: emitted motors, the currently open
header (if any) and its accumulated data points. -/
structure RaspState where
  motors : List (ParsedMeta × List (ℚ × ℚ))
  currentMeta : Option ParsedMeta
  currentPoints : List (ℚ × ℚ)
  deriving DecidableEq, Repr

/-- One iteration of the line loop of `parse_rasp_all`
(build_database.py, lines 493–515). -/
def raspStep (st : RaspState) (rawLine : Str) : RaspState :=
  let line := pyStrip rawLine
  if line.isEmpty ∨ line.headD ' ' = ';' then st
  else
    let parts := splitWords line
    match st.currentMeta with
    | none => { st with currentMeta := try_header parts, currentPoints := [] }
    | some meta =>
      if parts.length ≥ 2 then
        match parseFloat (parts.getD 0 []), parseFloat (parts.getD 1 []) with
        | some t, some thrust =>
          let pts := st.currentPoints ++ [(t, thrust)]
          if thrust = 0 then
            { motors := st.motors ++ [(meta, pts)], currentMeta := none, currentPoints := [] }
          else { st with currentPoints := pts }
        | _, _ =>
          -- `ValueError`: the line is tested as a new motor header
          match try_header parts with
          | some hdr =>
            if st.currentPoints.isEmpty then
              { st with currentMeta := some hdr, currentPoints := [] }
            else
              { motors := st.motors ++ [(meta, st.currentPoints)],
                currentMeta := some hdr, currentPoints := [] }
          | none => st
      else st

/-- `parse_rasp_all` (build_database.py, lines 471–519) over the list of
raw lines of the file: fold the line loop, then emit a still-open motor
with at least one accumulated point. -/
def parse_rasp_all (lines : List Str) : List (ParsedMeta × List (ℚ × ℚ)) :=
  let st := lines.foldl raspStep ⟨[], none, []⟩
  match st.currentMeta with
  | some m => if st.currentPoints.isEmpty then st.motors else st.motors ++ [(m, st.currentPoints)]
  | none => st.motors

/-- The common-name derivation of `parse_rse_all` (build_database.py,
line 531): `re.match(r'^([A-Z][0-9]+)', designation)` — if the designation
starts with an uppercase ASCII letter followed by at least one digit, the
common name is that letter plus the maximal digit run; otherwise the
designation verbatim. -/
def rseCommonName (designation : Str) : Str :=
  match designation with
  | [] => []
  | c :: rest =>
    if c.isUpper then
      let ds := rest.takeWhile Char.isDigit
      if ds.isEmpty then c :: rest else c :: ds
    else c :: rest

/-- Whether a designation starts with an uppercase ASCII letter followed by
a digit (i.e. whether `^([A-Z][0-9]+)` matches). -/
def startsUpperDigit : Str → Bool
  | c :: d :: _ => c.isUpper && d.isDigit
  | _ => false

/-- A pre-parsed `<engine>` XML element: the attributes `parse_rse_all`
reads (`engine.get(...)`, `none` = attribute absent) and the `t`/`f`
attribute pairs of its `<eng-data>` children in document order (an absent
`<data>` node is the empty list). -/
structure EngineElem where
  code : Option Str
  mfg : Option Str
  dia : Option Str
  len : Option Str
  propWt : Option Str
  initWt : Option Str
  delays : Option Str
  dataPoints : List (Option Str × Option Str)
  deriving DecidableEq, Repr

/-- `float(engine.get(attr, 0.0))`: an absent attribute defaults to `0.0`,
a present attribute string is parsed by `float()` and raises `ValueError`
(`.error`) when unparseable. -/
def attrFloat (a : Option Str) : Except Unit ℚ :=
  match a with
  | none => .ok 0
  | some s =>
    match parseFloat s with
    | some q => .ok q
    | none => .error ()

/-- The `<eng-data>` loop of `parse_rse_all` (lines 543–546). -/
def ptsLoop : List (Option Str × Option Str) → Except Unit (List (ℚ × ℚ))
  | [] => .ok []
  | (t, f) :: rest => do
    let tq ← attrFloat t
    let fq ← attrFloat f
    let others ← ptsLoop rest
    .ok ((tq, fq) :: others)

/-- Processing of one `<engine>` element inside the `try` of
`parse_rse_all` (build_database.py, lines 527–546): builds the header
dictionary and the point list; `.error` models any raised exception
(an attribute that fails `float()`). -/
def parseEngineE (e : EngineElem) : Except Unit (ParsedMeta × List (ℚ × ℚ)) := do
  let delaysRaw := e.delays.getD []
  let delays :=
    if delaysRaw = chars "0" ∨ delaysRaw = chars "P" ∨ delaysRaw = chars "p" ∨ delaysRaw = [] then
      none
    else some delaysRaw
  let designation := e.code.getD (chars "Unknown")
  let dia ← attrFloat e.dia
  let length ← attrFloat e.len
  let pw ← attrFloat e.propWt
  let tw ← attrFloat e.initWt
  let pts ← ptsLoop e.dataPoints
  .ok
    ({ designation := designation
       common_name := rseCommonName designation
       manufacturer := e.mfg.getD (chars "Unknown")
       diameter := dia
       length := length
       prop_weight := pw
       total_weight := tw
       delays := delays
       mtype := chars "SU" }, pts)

/-- The engine loop of `parse_rse_all`: engines are processed in document
order and an engine with no data points is dropped; the first exception
aborts the whole loop. -/
def rseLoop : List EngineElem → Except Unit (List (ParsedMeta × List (ℚ × ℚ)))
  | [] => .ok []
  | e :: rest => do
    let (meta, pts) ← parseEngineE e
    let others ← rseLoop rest
    .ok (if pts.isEmpty then others else (meta, pts) :: others)

/-- `parse_rse_all` (build_database.py, lines 522–551) over the pre-parsed
engine elements of the document: the whole loop runs inside one `try`, and
any exception makes the function return the empty list.  (A document that
fails XML parsing also yields `[]`, upstream of this model.) -/
def parse_rse_all (engines : List EngineElem) : List (ParsedMeta × List (ℚ × ℚ)) :=
  match rseLoop engines with
  | .ok l => l
  | .error _ => []

/-- One record of `motors_metadata.json["motors"]` — the externally fetched
ThrustCurve catalog metadata.  Every field is `Option` (Python `dict.get`). -/
structure TcMeta where
  motorId : Option Str
  manufacturer : Option Str
  manufacturerAbbrev : Option Str
  designation : Option Str
  commonName : Option Str
  impulseClass : Option Str
  diameter : Option ℚ
  length : Option ℚ
  mtype : Option Str
  avgThrustN : Option ℚ
  maxThrustN : Option ℚ
  totImpulseNs : Option ℚ
  burnTimeS : Option ℚ
  dataFiles : Option ℤ
  infoUrl : Option Str
  totalWeightG : Option ℚ
  propWeightG : Option ℚ
  delays : Option Str
  caseInfo : Option Str
  propInfo : Option Str
  sparky : Bool
  updatedOn : Option Str
  deriving DecidableEq, Repr

/-- The per-simfile info dictionary of `simfile_to_motor.json` (object form). -/
structure SimfileInfo where
  motorId : Option Str
  format : Option Str
  source : Option Str
  license : Option Str
  infoUrl : Option Str
  dataUrl : Option Str
  deriving DecidableEq, Repr

/-- A value of the simfile mapping: either a bare motor-id string or a full
info object. -/
inductive SimfileVal where
  | bare (s : Str)
  | obj (i : SimfileInfo)
  deriving DecidableEq, Repr

/-- `extract_simfile_info_from_filename` wraps a bare-string mapping value as
`{'motorId': info}` (build_database.py, lines 465–467). -/
def simfileValInfo : SimfileVal → SimfileInfo
  | .bare s => { motorId := some s, format := none, source := none,
                 license := none, infoUrl := none, dataUrl := none }
  | .obj i => i

/-- A hexadecimal character of the `[a-f0-9]{24}` pattern with `re.IGNORECASE`. -/
def isHexChar (c : Char) : Bool :=
  c.isDigit || ('a' ≤ c && c ≤ 'f') || ('A' ≤ c && c ≤ 'F')

/-- Fuel-bounded scanner for `re.findall(r'[a-f0-9]{24}', base, re.IGNORECASE)`:
leftmost, non-overlapping 24-character hexadecimal runs. -/
def findall24hexAux : ℕ → Str → List Str
  | 0, _ => []
  | _, [] => []
  | fuel + 1, c :: rest =>
    let pre := (c :: rest).take 24
    if pre.length = 24 ∧ pre.all isHexChar then
      pre :: findall24hexAux fuel ((c :: rest).drop 24)
    else findall24hexAux fuel rest

/-- `re.findall(r'[a-f0-9]{24}', s, re.IGNORECASE)`. -/
def findall24hex (s : Str) : List Str := findall24hexAux s.length s

/-- `os.path.splitext(filename)[0]` for a plain file name (no directory
separators): split at the last `.`, unless every character before it is a
dot. -/
def splitextBase (s : Str) : Str :=
  match (s.reverse.takeWhile (· ≠ '.')).length, s.length with
  | suffixLen, totalLen =>
    if suffixLen = totalLen then s  -- no dot at all
    else
      let base := s.take (totalLen - suffixLen - 1)
      if base.any (· ≠ '.') then base else s

/-- `extract_simfile_info_from_filename` (build_database.py, lines 458–468):
the first 24-hex token of the extension-stripped filename that is a key of
the simfile mapping, together with its (normalized) info object. -/
def extract_simfile_info_from_filename (filename : Str)
    (simfileMapping : List (Str × SimfileVal)) : Option (Str × SimfileInfo) :=
  let base := splitextBase filename
  (findall24hex base).findSome? fun m =>
    (find? simfileMapping m).map fun v => (m, simfileValInfo v)

/-- The external inputs of one build run: the catalog motor table, the
precomputed `(manufacturer_key, designation)` index over it, and the
manufacturer alias lookup. -/
structure Env where
  tcMotors : List (Str × TcMeta)
  metadataLookup : List ((Str × Str) × TcMeta)
  mfrLookup : List (Str × (Str × Str))

/-- A motors-table row, with the columns written by the build's two INSERT
statements (ids live in `BuildState`). -/
structure MotorRow where
  manufacturerId : ℕ
  tcMotorId : Option Str
  designation : Str
  commonName : Option Str
  impulseClass : Option Str
  diameter : ℚ
  length : ℚ
  totalImpulse : Option ℚ
  avgThrust : Option ℚ
  maxThrust : Option ℚ
  burnTime : Option ℚ
  propellantWeight : Option ℚ
  totalWeight : Option ℚ
  mtype : Str
  delays : Option Str
  caseInfo : Option Str
  propInfo : Option Str
  sparky : Bool
  infoUrl : Option Str
  dataFiles : Option ℤ
  updatedOn : Option Str
  deriving DecidableEq, Repr

/-- A thrust_curves row (build_database.py, lines 779–792). -/
structure CurveRow where
  motorId : ℕ
  tcSimfileId : Option Str
  source : Option Str
  format : Str
  license : Option Str
  infoUrl : Option Str
  dataUrl : Option Str
  totalImpulse : ℚ
  avgThrust : ℚ
  maxThrust : ℚ
  burnTime : ℚ
  deriving DecidableEq, Repr

/-- The mutable state of one build run: fresh-id counters, the three dedup
maps (`mfr_name_to_id`, `inserted_motors_by_tc_id`, `inserted_motors_by_key`,
`inserted_curves`) and the accumulated table rows. -/
structure BuildState where
  nextMotorId : ℕ
  nextCurveId : ℕ
  nextMfrId : ℕ
  mfrNameToId : List (Str × ℕ)
  byTcId : List (Str × ℕ)
  byKey : List ((ℕ × Str) × ℕ)
  insertedCurves : List (Str × ℕ)
  motors : List MotorRow
  curves : List CurveRow
  thrustData : List (ℕ × ℚ × ℚ)

/-- One parsed record as seen by the build loop: the header and points from
the parser, plus the per-file facts (`is_single`, `simfile_id`,
`simfile_info`, `file_fmt`) of the file the record came from. -/
structure FileRecord where
  parsed : ParsedMeta
  points : List (ℚ × ℚ)
  isSingle : Bool
  simfileId : Option Str
  simfileInfo : Option SimfileInfo
  fileFmt : Str

/-- The exact-match step of the catalog matcher (build_database.py,
lines 658–664): only a confirmed-single-motor file with a truthy mapped
motor id consults the catalog table; the second component is the
`tc_motor_id` variable after this step. -/
def exactMatch (env : Env) (isSingle : Bool) (simfileInfo : Option SimfileInfo) :
    Option TcMeta × Option Str :=
  match simfileInfo with
  | some info =>
    if isSingle ∧ strTruthy info.motorId then
      let mid := info.motorId.getD []
      (find? env.tcMotors mid, some mid)
    else (none, none)
  | none => (none, none)

/-- The fallback loop of the catalog matcher: the first of the four
manufacturer-key variants that, paired with the lowercased designation, hits
the metadata index. -/
def firstHit (lookup : List ((Str × Str) × TcMeta)) :
    List Str → Str → Option TcMeta
  | [], _ => none
  | k :: ks, d =>
    match find? lookup (k, d) with
    | some m => some m
    | none => firstHit lookup ks d

/-- The catalog matcher (build_database.py, lines 658–674): exact match
first; otherwise the `(manufacturer_key, designation)` fallback over the
four key variants.  `.error` models the `IndexError` raised by
`parsed_mfr.split()[0]` when the manufacturer token has no words. -/
def matchCatalogE (env : Env) (isSingle : Bool) (simfileInfo : Option SimfileInfo)
    (parsedMfr parsedDesignation : Str) : Except Unit (Option TcMeta × Option Str) :=
  match exactMatch env isSingle simfileInfo with
  | (some m, tid) => .ok (some m, tid)
  | (none, tid) =>
    let normalizedMfr := pyStrip (replaceUnderscores parsedMfr)
    match splitWords parsedMfr, splitWords normalizedMfr with
    | pw :: _, nw :: _ =>
      (match firstHit env.metadataLookup [parsedMfr, normalizedMfr, pw, nw] parsedDesignation with
       | some m => .ok (some m, m.motorId)
       | none => .ok (none, tid))
    | _, _ => .error ()

/-- The canonical-manufacturer chain (build_database.py, lines 677–684):
try the token verbatim, underscores-to-spaces, then the first word of each;
`.error` models the `IndexError` on an all-whitespace token. -/
def resolveCanonical (lookup : List (Str × (Str × Str)))
    (parsedMfr normalizedMfr : Str) : Except Unit (Option (Str × Str)) :=
  match find? lookup parsedMfr with
  | some c => .ok (some c)
  | none =>
    match find? lookup normalizedMfr with
    | some c => .ok (some c)
    | none =>
      match splitWords parsedMfr with
      | [] => .error ()
      | w :: _ =>
        match find? lookup w with
        | some c => .ok (some c)
        | none =>
          match splitWords normalizedMfr with
          | [] => .error ()
          | w2 :: _ => .ok (find? lookup w2)

/-- The manufacturer name/abbrev choice (build_database.py, lines 687–695):
a catalog record with a truthy manufacturer wins, then the canonical lookup,
then the `Unknown`/`UNK` sentinel (with a logged warning). -/
def chooseMfr (tcMeta : Option TcMeta) (canonical : Option (Str × Str)) :
    Str × Option Str :=
  match tcMeta with
  | some tc =>
    if strTruthy tc.manufacturer then (tc.manufacturer.getD [], tc.manufacturerAbbrev)
    else
      match canonical with
      | some (n, a) => (n, some a)
      | none => (chars "Unknown", some (chars "UNK"))
  | none =>
    match canonical with
    | some (n, a) => (n, some a)
    | none => (chars "Unknown", some (chars "UNK"))

/-- Manufacturer row id resolution (build_database.py, lines 698–708): the
in-memory `mfr_name_to_id` map, inserting a fresh row on a miss. -/
def getMfrId (st : BuildState) (name : Str) : ℕ × BuildState :=
  match find? st.mfrNameToId name with
  | some i => (i, st)
  | none =>
    (st.nextMfrId,
     { st with
        nextMfrId := st.nextMfrId + 1
        mfrNameToId := (name, st.nextMfrId) :: st.mfrNameToId })

/-- The motors row inserted when a catalog record was found
(build_database.py, lines 722–745): catalog identity, impulse class and
official statistics; header-preferred (`x or y`) common name, delays and
weights; header diameter/length; `dict.get`-default designation and type. -/
def motorRowTc (mfrId : ℕ) (tc : TcMeta) (parsed : ParsedMeta) : MotorRow :=
  { manufacturerId := mfrId
    tcMotorId := tc.motorId
    designation := tc.designation.getD parsed.designation
    commonName := if parsed.common_name.isEmpty then tc.commonName else some parsed.common_name
    impulseClass := tc.impulseClass
    diameter := parsed.diameter
    length := parsed.length
    totalImpulse := tc.totImpulseNs
    avgThrust := tc.avgThrustN
    maxThrust := tc.maxThrustN
    burnTime := tc.burnTimeS
    propellantWeight := if parsed.prop_weight = 0 then tc.propWeightG else some parsed.prop_weight
    totalWeight := if parsed.total_weight = 0 then tc.totalWeightG else some parsed.total_weight
    mtype := tc.mtype.getD parsed.mtype
    delays := if strTruthy parsed.delays then parsed.delays else tc.delays
    caseInfo := tc.caseInfo
    propInfo := tc.propInfo
    sparky := tc.sparky
    infoUrl := tc.infoUrl
    dataFiles := tc.dataFiles
    updatedOn := tc.updatedOn }

/-- The motors row inserted when no catalog record was found
(build_database.py, lines 747–762): locally parsed fields plus
`calculate_thrust_stats` of the curve. -/
def motorRowLocal (mfrId : ℕ) (parsed : ParsedMeta) (stats : ℚ × ℚ × ℚ × ℚ) : MotorRow :=
  { manufacturerId := mfrId
    tcMotorId := none
    designation := parsed.designation
    commonName := some parsed.common_name
    impulseClass := none
    diameter := parsed.diameter
    length := parsed.length
    totalImpulse := some stats.1
    avgThrust := some stats.2.1
    maxThrust := some stats.2.2.1
    burnTime := some stats.2.2.2
    propellantWeight := some parsed.prop_weight
    totalWeight := some parsed.total_weight
    mtype := parsed.mtype
    delays := parsed.delays
    caseInfo := none
    propInfo := none
    sparky := false
    infoUrl := none
    dataFiles := none
    updatedOn := none }

/-- Motor dedup-and-insert (build_database.py, lines 710–769): the row id of
an already-created motor with the same `tc_motor_id` (when truthy) or the
same `(manufacturer_id, designation)` key is reused; otherwise a row is
inserted and registered in both dedup maps. -/
def motorStep (st : BuildState) (tcMeta : Option TcMeta) (tcMotorId : Option Str)
    (mfrId : ℕ) (parsed : ParsedMeta) (points : List (ℚ × ℚ)) : ℕ × BuildState :=
  let designation :=
    match tcMeta with
    | some tc => tc.designation.getD parsed.designation
    | none => parsed.designation
  let motorKey := (mfrId, designation)
  let existing : Option ℕ :=
    match tcMotorId with
    | some tid =>
      if tid.isEmpty then find? st.byKey motorKey
      else
        match find? st.byTcId tid with
        | some i => some i
        | none => find? st.byKey motorKey
    | none => find? st.byKey motorKey
  match existing with
  | some i => (i, st)
  | none =>
    let row :=
      match tcMeta with
      | some tc => motorRowTc mfrId tc parsed
      | none => motorRowLocal mfrId parsed (calculate_thrust_stats points)
    let mid := st.nextMotorId
    (mid,
     { st with
        nextMotorId := mid + 1
        motors := st.motors ++ [row]
        byTcId :=
          match tcMotorId with
          | some tid => if tid.isEmpty then st.byTcId else (tid, mid) :: st.byTcId
          | none => st.byTcId
        byKey := (motorKey, mid) :: st.byKey })

/-- Curve dedup-and-insert (build_database.py, lines 771–803): the curve
identity key is the simfile id only for confirmed-single-motor files; a
truthy key already in `inserted_curves` skips the whole curve (and its
sample points); otherwise the curve row and its thrust_data rows are added
and a truthy key is registered. -/
def curveStep (st : BuildState) (dbMotorId : ℕ) (r : FileRecord) : BuildState :=
  let curSimfile := if r.isSingle then r.simfileId else none
  if strTruthy curSimfile ∧ (find? st.insertedCurves (curSimfile.getD [])).isSome then st
  else
    let stats := calculate_thrust_stats r.points
    -- `simfile_info.get(...) if simfile_info and cur_simfile else None`
    let prov : Option Str × Str × Option Str × Option Str × Option Str :=
      match r.simfileInfo with
      | some info =>
        if strTruthy curSimfile then
          (info.source, info.format.getD r.fileFmt, info.license, info.infoUrl, info.dataUrl)
        else (none, r.fileFmt, none, none, none)
      | none => (none, r.fileFmt, none, none, none)
    let row : CurveRow :=
      { motorId := dbMotorId
        tcSimfileId := curSimfile
        source := prov.1
        format := prov.2.1
        license := prov.2.2.1
        infoUrl := prov.2.2.2.1
        dataUrl := prov.2.2.2.2
        totalImpulse := stats.1
        avgThrust := stats.2.1
        maxThrust := stats.2.2.1
        burnTime := stats.2.2.2 }
    let cid := st.nextCurveId
    { st with
       nextCurveId := cid + 1
       curves := st.curves ++ [row]
       insertedCurves :=
         if strTruthy curSimfile then (curSimfile.getD [], cid) :: st.insertedCurves
         else st.insertedCurves
       thrustData := st.thrustData ++ r.points.map fun p => (cid, p.1, p.2) }

/-- Processing of one parsed record by the build loop (build_database.py,
lines 650–803): skip empty point lists, run catalog matching, manufacturer
normalization and row-id resolution, motor dedup/insert, then curve
dedup/insert.  A modelled per-record exception (`IndexError` on an
empty manufacturer token) leaves the state unchanged, like the build's
per-record `except` clause. -/
def processRecord (env : Env) (st : BuildState) (r : FileRecord) : BuildState :=
  if r.points.isEmpty then st
  else
    let parsedMfr := pyStrip (pyLower r.parsed.manufacturer)
    let parsedDesignation := pyStrip (pyLower r.parsed.designation)
    match matchCatalogE env r.isSingle r.simfileInfo parsedMfr parsedDesignation with
    | .error _ => st
    | .ok (tcMeta, tcMotorId) =>
      match resolveCanonical env.mfrLookup parsedMfr (pyStrip (replaceUnderscores parsedMfr)) with
      | .error _ => st
      | .ok canonical =>
        let mfrName := (chooseMfr tcMeta canonical).1
        let idSt := getMfrId st mfrName
        let midSt := motorStep idSt.2 tcMeta tcMotorId idSt.1 r.parsed r.points
        curveStep midSt.2 midSt.1 r

/-- The empty build state, with the manufacturer map seeded from the
canonical manufacturers file (build_database.py, lines 567–575) and the
corresponding fresh-id counter. -/
def initState (mfrSeed : List (Str × ℕ)) (nextMfr : ℕ) : BuildState :=
  { nextMotorId := 1, nextCurveId := 1, nextMfrId := nextMfr,
    mfrNameToId := mfrSeed, byTcId := [], byKey := [], insertedCurves := [],
    motors := [], curves := [], thrustData := [] }

/-- One build run over the flattened sequence of parsed records. -/
def buildRun (env : Env) (mfrSeed : List (Str × ℕ)) (nextMfr : ℕ)
    (records : List FileRecord) : BuildState :=
  records.foldl (processRecord env) (initState mfrSeed nextMfr)

/-- The motor identity key of a persisted row: the external catalog id when
the row came from a catalog match, else `(manufacturer_id, designation)`. -/
def rowKey (row : MotorRow) : Str ⊕ (ℕ × Str) :=
  match row.tcMotorId with
  | some t => Sum.inl t
  | none => Sum.inr (row.manufacturerId, row.designation)

/-- A persisted motor row's identity key is registered in the dedup maps of
the build state: its catalog id in `inserted_motors_by_tc_id` or its
`(manufacturer_id, designation)` key in `inserted_motors_by_key`. -/
def motorCovered (st : BuildState) (row : MotorRow) : Prop :=
  (∀ tcid, row.tcMotorId = some tcid → (find? st.byTcId tcid).isSome) ∧
  (row.tcMotorId = none → (find? st.byKey (row.manufacturerId, row.designation)).isSome)

/-- The motor-dedup invariant: pairwise distinct identity keys among the
persisted motor rows, each registered in the dedup maps. -/
def MotorInv (st : BuildState) : Prop :=
  (st.motors.map rowKey).Nodup ∧ ∀ row ∈ st.motors, motorCovered st row

/-- Well-formedness of the external catalog, as produced by the repository's
fetch script: every motor-metadata record is stored under its own (nonempty)
`motorId`, and the `(manufacturer, designation)` index only holds such
records. -/
def EnvConsistent (env : Env) : Prop :=
  (∀ p ∈ env.tcMotors, p.2.motorId = some p.1 ∧ p.1 ≠ []) ∧
  (∀ q ∈ env.metadataLookup, ∃ k, q.2.motorId = some k ∧ k ≠ [])

/-- Relation between a catalog-match result and the `tc_motor_id` variable:
a found record carries a nonempty catalog id equal to the dedup id. -/
def MatchFacts (tcMeta : Option TcMeta) (tid : Option Str) : Prop :=
  ∀ tc, tcMeta = some tc → ∃ k, tc.motorId = some k ∧ k ≠ [] ∧ tid = some k

/-- The curve-dedup invariant: every persisted curve row with a truthy
simfile key has that key registered in `inserted_curves`, and no two rows
share a truthy key. -/
def CurveInv (st : BuildState) : Prop :=
  ∀ s : Str, s ≠ [] →
    (st.curves.filter (fun c => c.tcSimfileId = some s)).length ≤ 1 ∧
    ((∃ c ∈ st.curves, c.tcSimfileId = some s) → (find? st.insertedCurves s).isSome)

/-! ## Helper lemmas -/

theorem impulseLoopAux_eq_trapSum :
    ∀ (l : List (ℚ × ℚ)) (a : ℚ × ℚ), impulseLoopAux a l = trapSum (a :: l) := by
  intro l
  induction l with
  | nil => intro a; simp [impulseLoopAux, trapSum]
  | cons b rest ih =>
    intro a
    simp only [impulseLoopAux, trapSum, List.tail_cons, List.zipWith, List.sum_cons] at ih ⊢
    rw [ih b]

theorem impulseLoop_eq_trapSum : ∀ l : List (ℚ × ℚ), impulseLoop l = trapSum l := by
  intro l
  cases l with
  | nil => simp [impulseLoop, trapSum]
  | cons a rest => exact impulseLoopAux_eq_trapSum rest a

theorem foldlMax_spec : ∀ (ps : List (ℚ × ℚ)) (init : ℚ),
    init ≤ ps.foldl (fun acc q => max acc q.2) init ∧
    (∀ q ∈ ps, q.2 ≤ ps.foldl (fun acc q => max acc q.2) init) ∧
    (ps.foldl (fun acc q => max acc q.2) init = init ∨
      ps.foldl (fun acc q => max acc q.2) init ∈ ps.map Prod.snd) := by
  intro ps
  induction ps with
  | nil => simp
  | cons a t ih =>
    intro init
    obtain ⟨h1, h2, h3⟩ := ih (max init a.2)
    refine ⟨le_trans (le_max_left _ _) h1, ?_, ?_⟩
    · intro q hq
      rcases List.mem_cons.mp hq with h | h
      · subst h; exact le_trans (le_max_right _ _) h1
      · exact h2 q h
    · rcases h3 with h | h
      · rw [List.foldl_cons, h]
        rcases max_choice init a.2 with hc | hc
        · exact Or.inl hc
        · exact Or.inr (by simp [hc])
      · exact Or.inr (by simp only [List.map_cons, List.mem_cons]; exact Or.inr h)

/-! ## Claim theorems -/

/-- **C1.** The statistics calculator returns `(0,0,0,0)` on the empty
sample sequence; on every non-empty sequence, `burn_time` is the time of
the last sample, `max_thrust` is the maximum thrust across all samples,
`impulse` is the trapezoidal sum over consecutive pairs of
`(f[i]+f[i-1])/2 * (t[i]-t[i-1])` (so a single point yields impulse 0) and
`avg_thrust` is `impulse/burn_time` when `burn_time > 0` and 0 otherwise;
for `[(0,0),(1,10),(2,0)]` it returns impulse 10, avg 5, max 10,
burn time 2. -/
theorem calculate_thrust_stats_spec :
    calculate_thrust_stats [] = (0, 0, 0, 0) ∧
    (∀ (p : ℚ × ℚ) (ps : List (ℚ × ℚ)),
      (calculate_thrust_stats (p :: ps)).2.2.2 =
        (List.getLast (p :: ps) (List.cons_ne_nil p ps)).1 ∧
      ((calculate_thrust_stats (p :: ps)).2.2.1 ∈ (p :: ps).map Prod.snd ∧
        ∀ q ∈ p :: ps, q.2 ≤ (calculate_thrust_stats (p :: ps)).2.2.1) ∧
      (calculate_thrust_stats (p :: ps)).1 = trapSum (p :: ps) ∧
      (ps = [] → (calculate_thrust_stats (p :: ps)).1 = 0) ∧
      (calculate_thrust_stats (p :: ps)).2.1 =
        (if (calculate_thrust_stats (p :: ps)).2.2.2 > 0 then
          (calculate_thrust_stats (p :: ps)).1 / (calculate_thrust_stats (p :: ps)).2.2.2
        else 0)) ∧
    calculate_thrust_stats [(0, 0), (1, 10), (2, 0)] = (10, 5, 10, 2) := by
  refine ⟨rfl, ?_,
    by norm_num [calculate_thrust_stats, impulseLoop, impulseLoopAux, List.getLast]⟩
  intro p ps
  obtain ⟨h1, h2, h3⟩ := foldlMax_spec ps p.2
  refine ⟨rfl, ⟨?_, ?_⟩, ?_, ?_, rfl⟩
  · show ps.foldl (fun acc q => max acc q.2) p.2 ∈ _
    rcases h3 with h | h
    · rw [h]; simp
    · simp only [List.map_cons, List.mem_cons]; exact Or.inr h
  · intro q hq
    show q.2 ≤ ps.foldl (fun acc q => max acc q.2) p.2
    rcases List.mem_cons.mp hq with h | h
    · subst h; exact h1
    · exact h2 q h
  · show (if (p :: ps).length > 1 then impulseLoop (p :: ps) else 0) = trapSum (p :: ps)
    cases ps with
    | nil => simp [trapSum]
    | cons b rest => simp [impulseLoop_eq_trapSum]
  · rintro rfl
    rfl

/-- Witness for `calculate_thrust_stats_spec`: the non-empty clause applied
to the concrete three-point curve. -/
theorem calculate_thrust_stats_spec_witness :
    (calculate_thrust_stats [(0, 0), (1, 10), (2, 0)]).1 =
      trapSum [(0, 0), (1, 10), (2, 0)] :=
  (calculate_thrust_stats_spec.2.1 (0, 0) [(1, 10), (2, 0)]).2.2.1

theorem takeWhile_digits_append (ds rest : Str)
    (hds : ∀ x ∈ ds, x.isDigit = true)
    (hr : ∀ x ∈ rest, x.isDigit = false) :
    (ds ++ rest).takeWhile Char.isDigit = ds := by
  induction ds with
  | nil =>
    cases rest with
    | nil => rfl
    | cons r rs => simp [List.takeWhile, hr r (by simp)]
  | cons d ds ih =>
    simp only [List.cons_append, List.takeWhile, hds d (by simp), List.append_eq]
    rw [ih (fun x hx => hds x (by simp [hx]))]

/-- **C6.** For every valid RASP header line (≥7 whitespace tokens, numeric
fields), the parsed propellant and total weights equal 1000× the kilogram
tokens, and a delay token `"0"`, `"P"` or `"p"` yields an absent delay spec
while any other delay token is passed through verbatim. -/
theorem try_header_units_spec
    (parts : List Str) (dia len pw tw : ℚ)
    (h7 : 7 ≤ parts.length)
    (h1 : parseFloat (parts.getD 1 []) = some dia)
    (h2 : parseFloat (parts.getD 2 []) = some len)
    (h4 : parseFloat (parts.getD 4 []) = some pw)
    (h5 : parseFloat (parts.getD 5 []) = some tw) :
    ∃ m, try_header parts = some m ∧
      m.prop_weight = 1000 * pw ∧
      m.total_weight = 1000 * tw ∧
      ((parts.getD 3 [] = chars "0" ∨ parts.getD 3 [] = chars "P" ∨
          parts.getD 3 [] = chars "p") → m.delays = none) ∧
      (¬(parts.getD 3 [] = chars "0" ∨ parts.getD 3 [] = chars "P" ∨
          parts.getD 3 [] = chars "p") → m.delays = some (parts.getD 3 [])) := by
  have hlt : ¬ parts.length < 7 := by omega
  simp only [try_header, if_neg hlt, h1, h2, h4, h5]
  refine ⟨_, rfl, mul_comm pw 1000, mul_comm tw 1000, ?_, ?_⟩
  · intro hd
    show (if _ then none else _) = none
    exact if_pos hd
  · intro hd
    show (if _ then none else _) = some _
    exact if_neg hd

/-- Witness for `try_header_units_spec`: the concrete header line
`F32 29 124 5-10-15 0.053 0.068 Test Motors`. -/
theorem try_header_units_spec_witness :
    ∃ m, try_header [chars "F32", chars "29", chars "124", chars "5-10-15",
        chars "0.053", chars "0.068", chars "Test", chars "Motors"] = some m ∧
      m.prop_weight = 1000 * (53 / 1000 : ℚ) ∧
      m.total_weight = 1000 * (68 / 1000 : ℚ) ∧
      (([chars "F32", chars "29", chars "124", chars "5-10-15", chars "0.053",
          chars "0.068", chars "Test", chars "Motors"].getD 3 [] = chars "0" ∨
        [chars "F32", chars "29", chars "124", chars "5-10-15", chars "0.053",
          chars "0.068", chars "Test", chars "Motors"].getD 3 [] = chars "P" ∨
        [chars "F32", chars "29", chars "124", chars "5-10-15", chars "0.053",
          chars "0.068", chars "Test", chars "Motors"].getD 3 [] = chars "p") →
        m.delays = none) ∧
      (¬([chars "F32", chars "29", chars "124", chars "5-10-15", chars "0.053",
          chars "0.068", chars "Test", chars "Motors"].getD 3 [] = chars "0" ∨
        [chars "F32", chars "29", chars "124", chars "5-10-15", chars "0.053",
          chars "0.068", chars "Test", chars "Motors"].getD 3 [] = chars "P" ∨
        [chars "F32", chars "29", chars "124", chars "5-10-15", chars "0.053",
          chars "0.068", chars "Test", chars "Motors"].getD 3 [] = chars "p") →
        m.delays = some ([chars "F32", chars "29", chars "124", chars "5-10-15",
          chars "0.053", chars "0.068", chars "Test", chars "Motors"].getD 3 [])) := by
  refine try_header_units_spec _ 29 124 (53 / 1000) (68 / 1000) (by decide) ?_ ?_ ?_ ?_
  · exact by decide
  · exact by decide
  · show parseFloat (chars "0.053") = some (53 / 1000 : ℚ)
    simp +decide [parseFloat, parseUnsigned, pyStrip, digitsVal, fracVal, chars]
    norm_num
  · show parseFloat (chars "0.068") = some (68 / 1000 : ℚ)
    simp +decide [parseFloat, parseUnsigned, pyStrip, digitsVal, fracVal, chars]
    norm_num

/-- **C7.** RockSim common-name derivation: a designation starting with a
letter-plus-digits prefix (`[A-Z][0-9]+`, as in the source pattern) has its
trailing suffix stripped down to that prefix (e.g. `H128W` → `H128`), and a
designation that does not start with a letter followed by a digit is kept
verbatim; the header built for every successfully processed engine uses
exactly this derivation on the `code` attribute. -/
theorem rse_common_name_spec :
    (∀ (c : Char) (ds rest : Str), c.isUpper = true → ds ≠ [] →
      (∀ x ∈ ds, x.isDigit = true) → (∀ x ∈ rest, x.isDigit = false) →
      rseCommonName (c :: (ds ++ rest)) = c :: ds) ∧
    (∀ d : Str, startsUpperDigit d = false → rseCommonName d = d) ∧
    (∀ (e : EngineElem) (m : ParsedMeta) (pts : List (ℚ × ℚ)),
      parseEngineE e = .ok (m, pts) →
      m.common_name = rseCommonName (e.code.getD (chars "Unknown"))) ∧
    rseCommonName (chars "H128W") = chars "H128" := by
  refine ⟨?_, ?_, ?_, by decide⟩
  · intro c ds rest hc hne hds hr
    simp only [rseCommonName, if_pos hc]
    rw [takeWhile_digits_append ds rest hds hr]
    have : ds.isEmpty = false := by
      cases ds with
      | nil => exact absurd rfl hne
      | cons a t => rfl
    simp [this]
  · intro d hd
    cases d with
    | nil => rfl
    | cons c rest =>
      cases rest with
      | nil =>
        by_cases hc : c.isUpper = true <;> simp [rseCommonName, hc, List.takeWhile]
      | cons d2 rest2 =>
        by_cases hc : c.isUpper = true
        · have hd2 : d2.isDigit = false := by
            simp only [startsUpperDigit, Bool.and_eq_false_iff] at hd
            rcases hd with h | h
            · exact absurd hc (by simp [h])
            · exact h
          simp [rseCommonName, hc, List.takeWhile, hd2]
        · simp [rseCommonName, hc]
  · intro e m pts h
    simp only [parseEngineE, bind, Except.bind] at h
    cases h1 : attrFloat e.dia <;> rw [h1] at h
    · exact absurd h (by simp)
    cases h2 : attrFloat e.len <;> rw [h2] at h
    · exact absurd h (by simp)
    cases h3 : attrFloat e.propWt <;> rw [h3] at h
    · exact absurd h (by simp)
    cases h4 : attrFloat e.initWt <;> rw [h4] at h
    · exact absurd h (by simp)
    cases h5 : ptsLoop e.dataPoints <;> rw [h5] at h
    · exact absurd h (by simp)
    simp only [Except.ok.injEq, Prod.mk.injEq] at h
    obtain ⟨hm, -⟩ := h
    subst hm
    rfl

/-- Witness for `rse_common_name_spec`: the `H128W` decomposition
`'H' :: "128" ++ "W"` with an alphabetic (non-digit) suffix. -/
theorem rse_common_name_spec_witness :
    rseCommonName ('H' :: (chars "128" ++ chars "W")) = 'H' :: chars "128" :=
  rse_common_name_spec.1 'H' (chars "128") (chars "W") (by decide) (by decide)
    (by decide) (by decide)

theorem rseLoop_error_of_mem (e : EngineElem) (he : parseEngineE e = .error ()) :
    ∀ (pre post : List EngineElem), rseLoop (pre ++ e :: post) = .error () := by
  intro pre
  induction pre with
  | nil =>
    intro post
    simp only [List.nil_append, rseLoop, bind, Except.bind, he]
  | cons a rest ih =>
    intro post
    simp only [List.cons_append, rseLoop, bind, Except.bind]
    cases h1 : parseEngineE a
    · rfl
    · rename_i val
      obtain ⟨meta, pts⟩ := val
      simp only [List.append_eq, ih post]

/-- **C10.** The RockSim parser is all-or-nothing per document: if
processing any engine element raises (e.g. an attribute that fails float
parsing), `parse_rse_all` returns the empty list for the whole file, also
discarding every engine parsed before the bad one. -/
theorem parse_rse_all_all_or_nothing
    (pre post : List EngineElem) (e : EngineElem)
    (he : parseEngineE e = .error ()) :
    parse_rse_all (pre ++ e :: post) = [] := by
  unfold parse_rse_all
  rw [rseLoop_error_of_mem e he pre post]

/-- Witness for `parse_rse_all_all_or_nothing`: a document whose first
engine parses fine and whose second has an unparseable `dia` attribute
yields no records at all. -/
theorem parse_rse_all_all_or_nothing_witness :
    parse_rse_all
      ([⟨some (chars "A8"), some (chars "Estes"), some (chars "18"), some (chars "70"),
          some (chars "3"), some (chars "16"), none,
          [(some (chars "0"), some (chars "5"))]⟩] ++
        (⟨some (chars "G64W"), some (chars "RSE"), some (chars "abc"), none, none, none,
          none, []⟩ : EngineElem) :: []) = [] :=
  parse_rse_all_all_or_nothing _ _ _ (by rfl)

/-- **C5.** RASP multi-motor segmentation: a data line with thrust 0 closes
the current motor with that zero point as its last sample; a line that fails
the two-float parse but qualifies as a header closes the current motor
(when it has points) and opens a new one; at end of file an open motor with
accumulated points is emitted; and the concrete two-header file with a
zero-thrust terminator yields exactly its two records in file order. -/
theorem parse_rasp_all_segmentation_spec :
    (∀ (st : RaspState) (meta : ParsedMeta) (line : Str) (t : ℚ) (p0 p1 : Str) (rest : List Str),
      st.currentMeta = some meta →
      (pyStrip line).isEmpty = false →
      (pyStrip line).headD ' ' ≠ ';' →
      splitWords (pyStrip line) = p0 :: p1 :: rest →
      parseFloat p0 = some t →
      parseFloat p1 = some 0 →
      raspStep st line =
        ⟨st.motors ++ [(meta, st.currentPoints ++ [(t, 0)])], none, []⟩) ∧
    (∀ (st : RaspState) (meta hdr : ParsedMeta) (line : Str),
      st.currentMeta = some meta →
      (pyStrip line).isEmpty = false →
      (pyStrip line).headD ' ' ≠ ';' →
      (parseFloat ((splitWords (pyStrip line)).getD 0 []) = none ∨
        parseFloat ((splitWords (pyStrip line)).getD 1 []) = none) →
      try_header (splitWords (pyStrip line)) = some hdr →
      raspStep st line =
        (if st.currentPoints.isEmpty then ⟨st.motors, some hdr, []⟩
         else ⟨st.motors ++ [(meta, st.currentPoints)], some hdr, []⟩)) ∧
    (∀ (lines : List Str) (m : ParsedMeta),
      (lines.foldl raspStep ⟨[], none, []⟩).currentMeta = some m →
      (lines.foldl raspStep ⟨[], none, []⟩).currentPoints.isEmpty = false →
      parse_rasp_all lines =
        (lines.foldl raspStep ⟨[], none, []⟩).motors ++
          [(m, (lines.foldl raspStep ⟨[], none, []⟩).currentPoints)]) ∧
    parse_rasp_all
        [chars "; comment", chars "A8 18 70 3-5-7 1 2 Estes", chars "1 5", chars "2 0",
         chars "B6 18 70 5 1 2 Estes", chars "1 4", chars "3 2"] =
      [(⟨chars "A8", chars "A8", 18, 70, some (chars "3-5-7"), 1000, 2000, chars "Estes",
          chars "SU"⟩, [(1, 5), (2, 0)]),
       (⟨chars "B6", chars "B6", 18, 70, some (chars "5"), 1000, 2000, chars "Estes",
          chars "SU"⟩, [(1, 4), (3, 2)])] := by
  refine ⟨?_, ?_, ?_, ?_⟩
  · intro st meta line t p0 p1 rest hcm hne hsc hsplit hp0 hp1
    have hcond : ¬((pyStrip line).isEmpty = true ∨ (pyStrip line).headD ' ' = ';') := by
      rintro (h | h)
      · rw [hne] at h; cases h
      · exact hsc h
    have hlen : (splitWords (pyStrip line)).length ≥ 2 := by
      rw [hsplit]; simp only [List.length_cons]; omega
    simp only [raspStep, if_neg hcond, hcm, if_pos hlen, hsplit, List.getD_cons_zero,
      List.getD_cons_succ, hp0, hp1]
    simp
  · intro st meta hdr line hcm hne hsc hfail hth
    have hcond : ¬((pyStrip line).isEmpty = true ∨ (pyStrip line).headD ' ' = ';') := by
      rintro (h | h)
      · rw [hne] at h; cases h
      · exact hsc h
    have hlen : (splitWords (pyStrip line)).length ≥ 2 := by
      by_contra hc
      have h7 : (splitWords (pyStrip line)).length < 7 := by omega
      simp [try_header, h7] at hth
    simp only [raspStep, if_neg hcond, hcm, if_pos hlen, hth]
    cases hx0 : parseFloat ((splitWords (pyStrip line)).getD 0 []) with
    | none => simp only [hx0]
    | some v =>
      rcases hfail with hf | hf
      · rw [hx0] at hf; cases hf
      · simp only [hx0, hf]
  · intro lines m hm hp
    simp only [parse_rasp_all, hm, hp]
    simp
  · simp +decide [parse_rasp_all, raspStep, try_header, splitWords, splitWordsAux, pyStrip,
      parseFloat, parseUnsigned, digitsVal, chars, joinSpace]
    norm_num

theorem find?_cons {α β : Type} [DecidableEq α] (l : List (α × β)) (k a : α) (v : β) :
    find? ((k, v) :: l) a = if a = k then some v else find? l a := rfl

theorem find?_cons_isSome {α β : Type} [DecidableEq α] (l : List (α × β)) (k a : α) (v : β)
    (h : (find? l a).isSome) : (find? ((k, v) :: l) a).isSome := by
  rw [find?_cons]
  split <;> simp [h]

theorem find?_mem {α β : Type} [DecidableEq α] {l : List (α × β)} {a : α} {b : β}
    (h : find? l a = some b) : (a, b) ∈ l := by
  induction l with
  | nil => cases h
  | cons p rest ih =>
    obtain ⟨k, v⟩ := p
    rw [find?_cons] at h
    by_cases hk : a = k
    · rw [if_pos hk] at h
      obtain rfl : v = b := by injection h
      subst hk
      exact List.mem_cons_self _ _
    · rw [if_neg hk] at h
      exact List.mem_cons_of_mem _ (ih h)

theorem firstHit_mem {lookup : List ((Str × Str) × TcMeta)} :
    ∀ {ks : List Str} {d : Str} {m : TcMeta},
      firstHit lookup ks d = some m → ∃ k, ((k, d), m) ∈ lookup := by
  intro ks
  induction ks with
  | nil => intro d m h; cases h
  | cons k rest ih =>
    intro d m h
    unfold firstHit at h
    cases hf : find? lookup (k, d) with
    | some m' =>
      rw [hf] at h
      obtain rfl : m' = m := by injection h
      exact ⟨k, find?_mem hf⟩
    | none =>
      rw [hf] at h
      exact ih h

theorem exactMatch_some {env : Env} {isS : Bool} {sinfo : Option SimfileInfo}
    {m : TcMeta} {tid : Option Str}
    (h : exactMatch env isS sinfo = (some m, tid)) :
    ∃ mid, find? env.tcMotors mid = some m ∧ tid = some mid := by
  cases sinfo with
  | none => simp [exactMatch, Prod.mk.injEq] at h
  | some info =>
    by_cases hcnd : isS = true ∧ strTruthy info.motorId = true
    · simp only [exactMatch, if_pos hcnd, Prod.mk.injEq] at h
      exact ⟨info.motorId.getD [], h.1, h.2.symm⟩
    · simp only [exactMatch, if_neg hcnd, Prod.mk.injEq] at h
      simp at h

theorem matchCatalogE_facts {env : Env} (hc : EnvConsistent env) {isS : Bool}
    {sinfo : Option SimfileInfo} {pm pd : Str} {tcMeta : Option TcMeta} {tid : Option Str}
    (h : matchCatalogE env isS sinfo pm pd = .ok (tcMeta, tid)) :
    MatchFacts tcMeta tid := by
  intro tc htc
  subst htc
  unfold matchCatalogE at h
  cases hex : exactMatch env isS sinfo with
  | mk o t =>
    rw [hex] at h
    cases o with
    | some m =>
      simp only [Except.ok.injEq, Prod.mk.injEq] at h
      obtain ⟨hm, ht⟩ := h
      obtain rfl : m = tc := by injection hm
      obtain ⟨mid, hfind, rfl⟩ := exactMatch_some hex
      obtain ⟨hid, hne⟩ := hc.1 _ (find?_mem hfind)
      exact ⟨mid, hid, hne, ht ▸ rfl⟩
    | none =>
      dsimp only at h
      cases hw1 : splitWords pm with
      | nil =>
        rw [hw1] at h
        cases hw2 : splitWords (pyStrip (replaceUnderscores pm)) <;>
          rw [hw2] at h <;> simp at h
      | cons w ws =>
        rw [hw1] at h
        cases hw2 : splitWords (pyStrip (replaceUnderscores pm)) with
        | nil => rw [hw2] at h; simp at h
        | cons w2 ws2 =>
          rw [hw2] at h
          dsimp only at h
          cases hf : firstHit env.metadataLookup
              [pm, pyStrip (replaceUnderscores pm), w, w2] pd with
          | some m =>
            rw [hf] at h
            simp only [Except.ok.injEq, Prod.mk.injEq] at h
            obtain ⟨hm, ht⟩ := h
            obtain rfl : m = tc := by injection hm
            obtain ⟨k, hk⟩ := firstHit_mem hf
            obtain ⟨k', hid, hne⟩ := hc.2 _ hk
            exact ⟨k', hid, hne, ht ▸ hid⟩
          | none =>
            rw [hf] at h
            simp only [Except.ok.injEq, Prod.mk.injEq] at h
            simp at h

theorem rowKey_inl {row : MotorRow} {k : Str} (h : rowKey row = Sum.inl k) :
    row.tcMotorId = some k := by
  unfold rowKey at h
  cases ht : row.tcMotorId with
  | some t => rw [ht] at h; injection h with h'; rw [h']
  | none => rw [ht] at h; cases h

theorem rowKey_inr {row : MotorRow} {mk : ℕ × Str} (h : rowKey row = Sum.inr mk) :
    row.tcMotorId = none ∧ (row.manufacturerId, row.designation) = mk := by
  unfold rowKey at h
  cases ht : row.tcMotorId with
  | some t => rw [ht] at h; cases h
  | none => rw [ht] at h; injection h with h'; exact ⟨rfl, h'⟩

theorem getMfrId_frame (st : BuildState) (n : Str) :
    ((getMfrId st n).2).motors = st.motors ∧ ((getMfrId st n).2).byTcId = st.byTcId ∧
    ((getMfrId st n).2).byKey = st.byKey ∧
    ((getMfrId st n).2).insertedCurves = st.insertedCurves ∧
    ((getMfrId st n).2).curves = st.curves ∧
    ((getMfrId st n).2).thrustData = st.thrustData := by
  cases h : find? st.mfrNameToId n <;> simp [getMfrId, h]

theorem curveStep_frame (st : BuildState) (mid : ℕ) (r : FileRecord) :
    (curveStep st mid r).motors = st.motors ∧ (curveStep st mid r).byTcId = st.byTcId ∧
    (curveStep st mid r).byKey = st.byKey := by
  unfold curveStep
  dsimp only
  split <;> split <;> simp

theorem motorStep_frame (st : BuildState) (tcMeta : Option TcMeta) (tid : Option Str)
    (mfrId : ℕ) (p : ParsedMeta) (pts : List (ℚ × ℚ)) :
    ((motorStep st tcMeta tid mfrId p pts).2).curves = st.curves ∧
    ((motorStep st tcMeta tid mfrId p pts).2).insertedCurves = st.insertedCurves ∧
    ((motorStep st tcMeta tid mfrId p pts).2).thrustData = st.thrustData := by
  unfold motorStep
  dsimp only
  split <;> simp

theorem MotorInv_congr {st st' : BuildState} (hm : st'.motors = st.motors)
    (ht : st'.byTcId = st.byTcId) (hk : st'.byKey = st.byKey)
    (h : MotorInv st) : MotorInv st' := by
  obtain ⟨h1, h2⟩ := h
  refine ⟨hm ▸ h1, ?_⟩
  intro row hr
  have hc := h2 row (hm ▸ hr)
  exact ⟨fun tcid hid => ht ▸ hc.1 tcid hid, fun hid => hk ▸ hc.2 hid⟩

theorem byTcId_update_mono (st : BuildState) (tid : Option Str) (mid : ℕ) (x : Str)
    (h : (find? st.byTcId x).isSome) :
    (find? (match tid with
      | some t => if t.isEmpty then st.byTcId else (t, mid) :: st.byTcId
      | none => st.byTcId) x).isSome := by
  cases tid with
  | none => exact h
  | some t =>
    by_cases he : t.isEmpty = true
    · simp only [if_pos he]; exact h
    · simp only [if_neg he]; exact find?_cons_isSome _ _ _ _ h

theorem nodup_map_append_one {l : List MotorRow} {row : MotorRow}
    (hnd : (l.map rowKey).Nodup) (hnotin : rowKey row ∉ l.map rowKey) :
    ((l ++ [row]).map rowKey).Nodup := by
  rw [List.map_append, List.map_singleton, List.nodup_append]
  refine ⟨hnd, List.nodup_singleton _, fun x hx hx2 => ?_⟩
  rw [List.mem_singleton] at hx2
  subst hx2
  exact hnotin hx

theorem no_row_with_tcid {st : BuildState}
    (hcov : ∀ row ∈ st.motors, motorCovered st row)
    {k : Str} (hfa : find? st.byTcId k = none) :
    Sum.inl k ∉ st.motors.map rowKey := by
  intro hx
  obtain ⟨o, ho, hok⟩ := List.mem_map.mp hx
  have h1 := (hcov o ho).1 k (rowKey_inl hok)
  rw [hfa] at h1
  simp at h1

theorem no_row_with_key {st : BuildState}
    (hcov : ∀ row ∈ st.motors, motorCovered st row)
    {mk : ℕ × Str} (hfb : find? st.byKey mk = none) :
    Sum.inr mk ∉ st.motors.map rowKey := by
  intro hx
  obtain ⟨o, ho, hok⟩ := List.mem_map.mp hx
  obtain ⟨hnone, hmk⟩ := rowKey_inr hok
  have h2 := (hcov o ho).2 hnone
  rw [hmk, hfb] at h2
  simp at h2

theorem motorInv_insert_tc (st : BuildState) (tc : TcMeta) (k : Str) (mfrId : ℕ)
    (p : ParsedMeta) (mid : ℕ)
    (hkid : tc.motorId = some k)
    (hfa : find? st.byTcId k = none)
    (hinv : MotorInv st) :
    MotorInv { st with
      nextMotorId := mid + 1,
      motors := st.motors ++ [motorRowTc mfrId tc p],
      byTcId := (k, mid) :: st.byTcId,
      byKey := ((mfrId, tc.designation.getD p.designation), mid) :: st.byKey } := by
  obtain ⟨hnd, hcov⟩ := hinv
  have hrowid : (motorRowTc mfrId tc p).tcMotorId = some k := hkid
  constructor
  · apply nodup_map_append_one hnd
    have hrk : rowKey (motorRowTc mfrId tc p) = Sum.inl k := by
      simp [rowKey, hrowid]
    rw [hrk]
    exact no_row_with_tcid hcov hfa
  · intro row hr
    dsimp only at hr
    rw [List.mem_append, List.mem_singleton] at hr
    rcases hr with hr | hr
    · obtain ⟨c1, c2⟩ := hcov row hr
      exact ⟨fun t ht => find?_cons_isSome _ _ _ _ (c1 t ht),
             fun hn => find?_cons_isSome _ _ _ _ (c2 hn)⟩
    · subst hr
      refine ⟨fun t ht => ?_, fun hn => ?_⟩
      · rw [hrowid] at ht
        obtain rfl : k = t := by injection ht
        show (find? ((k, mid) :: st.byTcId) k).isSome
        rw [find?_cons, if_pos rfl]
        rfl
      · rw [hrowid] at hn
        cases hn

theorem motorInv_insert_local (st : BuildState) (newTc : List (Str × ℕ)) (mfrId : ℕ)
    (p : ParsedMeta) (pts : List (ℚ × ℚ)) (mid : ℕ)
    (hfb : find? st.byKey (mfrId, p.designation) = none)
    (hmono : ∀ x, (find? st.byTcId x).isSome → (find? newTc x).isSome)
    (hinv : MotorInv st) :
    MotorInv { st with
      nextMotorId := mid + 1,
      motors := st.motors ++ [motorRowLocal mfrId p (calculate_thrust_stats pts)],
      byTcId := newTc,
      byKey := ((mfrId, p.designation), mid) :: st.byKey } := by
  obtain ⟨hnd, hcov⟩ := hinv
  have hrowid : (motorRowLocal mfrId p (calculate_thrust_stats pts)).tcMotorId = none := rfl
  constructor
  · apply nodup_map_append_one hnd
    have hrk : rowKey (motorRowLocal mfrId p (calculate_thrust_stats pts)) =
        Sum.inr (mfrId, p.designation) := by
      simp [rowKey, motorRowLocal]
    rw [hrk]
    exact no_row_with_key hcov hfb
  · intro row hr
    dsimp only at hr
    rw [List.mem_append, List.mem_singleton] at hr
    rcases hr with hr | hr
    · obtain ⟨c1, c2⟩ := hcov row hr
      exact ⟨fun t ht => hmono t (c1 t ht),
             fun hn => find?_cons_isSome _ _ _ _ (c2 hn)⟩
    · subst hr
      refine ⟨fun t ht => ?_, fun _ => ?_⟩
      · rw [hrowid] at ht; cases ht
      · show (find? (((mfrId, p.designation), mid) :: st.byKey)
            ((motorRowLocal mfrId p (calculate_thrust_stats pts)).manufacturerId,
             (motorRowLocal mfrId p (calculate_thrust_stats pts)).designation)).isSome
        simp [find?_cons, motorRowLocal]

theorem motorStep_MotorInv (st : BuildState) (tcMeta : Option TcMeta) (tid : Option Str)
    (mfrId : ℕ) (p : ParsedMeta) (pts : List (ℚ × ℚ))
    (hmf : MatchFacts tcMeta tid) (hinv : MotorInv st) :
    MotorInv (motorStep st tcMeta tid mfrId p pts).2 := by
  cases htc : tcMeta with
  | some tc =>
    obtain ⟨k, hkid, hkne, rfl⟩ := (htc ▸ hmf) tc rfl
    have hke : k.isEmpty = false := by
      cases k with
      | nil => exact absurd rfl hkne
      | cons a t => rfl
    unfold motorStep
    simp only [hke, Bool.false_eq_true, if_false]
    cases hfa : find? st.byTcId k with
    | some i => simp only [hfa]; exact hinv
    | none =>
      simp only [hfa]
      cases hfb : find? st.byKey (mfrId, tc.designation.getD p.designation) with
      | some i => simp only [hfb]; exact hinv
      | none =>
        simp only [hfb]
        exact motorInv_insert_tc st tc k mfrId p st.nextMotorId hkid hfa hinv
  | none =>
    unfold motorStep
    dsimp only
    cases tid with
    | none =>
      cases hfb : find? st.byKey (mfrId, p.designation) with
      | some i => simp only [hfb]; exact hinv
      | none =>
        simp only [hfb]
        exact motorInv_insert_local st st.byTcId mfrId p pts st.nextMotorId hfb
          (fun x h => h) hinv
    | some t =>
      by_cases hte : t.isEmpty = true
      · simp only [if_pos hte]
        cases hfb : find? st.byKey (mfrId, p.designation) with
        | some i => simp only [hfb]; exact hinv
        | none =>
          simp only [hfb]
          exact motorInv_insert_local st st.byTcId mfrId p pts st.nextMotorId hfb
            (fun x h => h) hinv
      · simp only [if_neg hte]
        cases hfa : find? st.byTcId t with
        | some i => simp only [hfa]; exact hinv
        | none =>
          simp only [hfa]
          cases hfb : find? st.byKey (mfrId, p.designation) with
          | some i => simp only [hfb]; exact hinv
          | none =>
            simp only [hfb]
            exact motorInv_insert_local st ((t, st.nextMotorId) :: st.byTcId) mfrId p pts
              st.nextMotorId hfb (fun x h => find?_cons_isSome _ _ _ _ h) hinv

theorem processRecord_MotorInv (env : Env) (hc : EnvConsistent env)
    (st : BuildState) (r : FileRecord) (hinv : MotorInv st) :
    MotorInv (processRecord env st r) := by
  unfold processRecord
  dsimp only
  split
  · exact hinv
  · cases hm : matchCatalogE env r.isSingle r.simfileInfo
        (pyStrip (pyLower r.parsed.manufacturer))
        (pyStrip (pyLower r.parsed.designation)) with
    | error u => simp only [hm]; exact hinv
    | ok pr =>
      obtain ⟨tcMeta, tid⟩ := pr
      simp only [hm]
      cases hr : resolveCanonical env.mfrLookup
          (pyStrip (pyLower r.parsed.manufacturer))
          (pyStrip (replaceUnderscores (pyStrip (pyLower r.parsed.manufacturer)))) with
      | error u => exact hinv
      | ok canonical =>
        have hmf := matchCatalogE_facts hc hm
        have h1 : MotorInv (getMfrId st (chooseMfr tcMeta canonical).1).2 := by
          obtain ⟨f1, f2, f3, -, -, -⟩ :=
            getMfrId_frame st (chooseMfr tcMeta canonical).1
          exact MotorInv_congr f1 f2 f3 hinv
        have h2 := motorStep_MotorInv (getMfrId st (chooseMfr tcMeta canonical).1).2 tcMeta
          tid (getMfrId st (chooseMfr tcMeta canonical).1).1 r.parsed r.points hmf h1
        obtain ⟨g1, g2, g3⟩ := curveStep_frame
          (motorStep (getMfrId st (chooseMfr tcMeta canonical).1).2 tcMeta tid
            (getMfrId st (chooseMfr tcMeta canonical).1).1 r.parsed r.points).2
          (motorStep (getMfrId st (chooseMfr tcMeta canonical).1).2 tcMeta tid
            (getMfrId st (chooseMfr tcMeta canonical).1).1 r.parsed r.points).1 r
        exact MotorInv_congr g1 g2 g3 h2

/-- **C2.** Within one build run, at most one motors-table row is ever
inserted per motor identity key (the external catalog id for
catalog-matched records, else `(manufacturer_id, designation)`): the
identity keys of the persisted rows are pairwise distinct, because a record
whose key is already registered reuses the existing row instead of
inserting.  The hypothesis is the catalog well-formedness guaranteed by the
repository's fetch script: each metadata record is stored under its own
nonempty `motorId`. -/
theorem motor_dedup_unique (env : Env) (hc : EnvConsistent env)
    (mfrSeed : List (Str × ℕ)) (nextMfr : ℕ) (records : List FileRecord) :
    ((buildRun env mfrSeed nextMfr records).motors.map rowKey).Nodup := by
  have main : ∀ st, MotorInv st → MotorInv (records.foldl (processRecord env) st) := by
    induction records with
    | nil => intro st h; exact h
    | cons r rest ih =>
      intro st h
      exact ih _ (processRecord_MotorInv env hc st r h)
  have hinit : MotorInv (initState mfrSeed nextMfr) := by
    constructor
    · simp [initState]
    · intro row hr
      cases hr
  exact (main (initState mfrSeed nextMfr) hinit).1

/-- Witness for `motor_dedup_unique`: two records with the same
manufacturer and designation in one run (empty catalog, so the identity key
is the local pair) produce pairwise-distinct row keys. -/
theorem motor_dedup_unique_witness :
    ((buildRun ⟨[], [], []⟩ [] 1
        [⟨⟨chars "A8", chars "A8", 18, 70, none, 3, 16, chars "Estes", chars "SU"⟩,
          [(0, 5)], false, none, none, chars "RASP"⟩,
         ⟨⟨chars "A8", chars "A8", 18, 70, none, 3, 16, chars "Estes", chars "SU"⟩,
          [(0, 5)], false, none, none, chars "RASP"⟩]).motors.map rowKey).Nodup :=
  motor_dedup_unique ⟨[], [], []⟩ ⟨by simp, by simp⟩ [] 1 _

/-- **C3.** When a catalog record is found, the persisted motor row takes
its identity (designation), catalog id, impulse class and official
statistics from the catalog record, while common name, diameter, length,
delay spec and the two weights come from the locally parsed header whenever
the header value is non-empty (in the Python-truthiness sense), falling
back to the catalog value only when the header value is empty/absent.  The
parsers always supply a diameter and length, so those two are always the
header's. -/
theorem motorRowTc_field_provenance (mfrId : ℕ) (tc : TcMeta) (parsed : ParsedMeta)
    (d : Str) (hdes : tc.designation = some d) :
    (motorRowTc mfrId tc parsed).designation = d ∧
    (motorRowTc mfrId tc parsed).tcMotorId = tc.motorId ∧
    (motorRowTc mfrId tc parsed).impulseClass = tc.impulseClass ∧
    (motorRowTc mfrId tc parsed).totalImpulse = tc.totImpulseNs ∧
    (motorRowTc mfrId tc parsed).avgThrust = tc.avgThrustN ∧
    (motorRowTc mfrId tc parsed).maxThrust = tc.maxThrustN ∧
    (motorRowTc mfrId tc parsed).burnTime = tc.burnTimeS ∧
    (parsed.common_name ≠ [] →
      (motorRowTc mfrId tc parsed).commonName = some parsed.common_name) ∧
    (parsed.common_name = [] →
      (motorRowTc mfrId tc parsed).commonName = tc.commonName) ∧
    (motorRowTc mfrId tc parsed).diameter = parsed.diameter ∧
    (motorRowTc mfrId tc parsed).length = parsed.length ∧
    (strTruthy parsed.delays = true →
      (motorRowTc mfrId tc parsed).delays = parsed.delays) ∧
    (strTruthy parsed.delays = false →
      (motorRowTc mfrId tc parsed).delays = tc.delays) ∧
    (parsed.prop_weight ≠ 0 →
      (motorRowTc mfrId tc parsed).propellantWeight = some parsed.prop_weight) ∧
    (parsed.prop_weight = 0 →
      (motorRowTc mfrId tc parsed).propellantWeight = tc.propWeightG) ∧
    (parsed.total_weight ≠ 0 →
      (motorRowTc mfrId tc parsed).totalWeight = some parsed.total_weight) ∧
    (parsed.total_weight = 0 →
      (motorRowTc mfrId tc parsed).totalWeight = tc.totalWeightG) := by
  refine ⟨by simp [motorRowTc, hdes], rfl, rfl, rfl, rfl, rfl, rfl,
    ?_, ?_, rfl, rfl, ?_, ?_, ?_, ?_, ?_, ?_⟩
  · intro h
    have he : parsed.common_name.isEmpty = false := by
      cases hcn : parsed.common_name with
      | nil => exact absurd hcn h
      | cons a b => rfl
    simp [motorRowTc, he]
  · intro h
    simp [motorRowTc, h]
  · intro h
    simp [motorRowTc, h]
  · intro h
    simp [motorRowTc, h]
  · intro h
    simp [motorRowTc, h]
  · intro h
    simp [motorRowTc, h]
  · intro h
    simp [motorRowTc, h]
  · intro h
    simp [motorRowTc, h]

/-- Witness for `motorRowTc_field_provenance`: a concrete catalog record
and header with a non-empty common name, a missing header delay spec and a
zero header propellant weight. -/
theorem motorRowTc_field_provenance_witness :
    (motorRowTc 1
        ⟨some (chars "m1"), some (chars "Estes"), some (chars "Estes"),
         some (chars "A8-3"), some (chars "A8"), some (chars "A"), some 18, some 70,
         some (chars "SU"), some 4, some 10, some 2, some 1, some 2, none, some 17,
         some 3, some (chars "3"), none, none, false, none⟩
        ⟨chars "A8", chars "A8", 18, 70, none, 0, 16, chars "Estes", chars "SU"⟩).designation =
      chars "A8-3" ∧
    (motorRowTc 1
        ⟨some (chars "m1"), some (chars "Estes"), some (chars "Estes"),
         some (chars "A8-3"), some (chars "A8"), some (chars "A"), some 18, some 70,
         some (chars "SU"), some 4, some 10, some 2, some 1, some 2, none, some 17,
         some 3, some (chars "3"), none, none, false, none⟩
        ⟨chars "A8", chars "A8", 18, 70, none, 0, 16, chars "Estes", chars "SU"⟩).commonName =
      some (chars "A8") ∧
    (motorRowTc 1
        ⟨some (chars "m1"), some (chars "Estes"), some (chars "Estes"),
         some (chars "A8-3"), some (chars "A8"), some (chars "A"), some 18, some 70,
         some (chars "SU"), some 4, some 10, some 2, some 1, some 2, none, some 17,
         some 3, some (chars "3"), none, none, false, none⟩
        ⟨chars "A8", chars "A8", 18, 70, none, 0, 16, chars "Estes", chars "SU"⟩).delays =
      some (chars "3") ∧
    (motorRowTc 1
        ⟨some (chars "m1"), some (chars "Estes"), some (chars "Estes"),
         some (chars "A8-3"), some (chars "A8"), some (chars "A"), some 18, some 70,
         some (chars "SU"), some 4, some 10, some 2, some 1, some 2, none, some 17,
         some 3, some (chars "3"), none, none, false, none⟩
        ⟨chars "A8", chars "A8", 18, 70, none, 0, 16, chars "Estes", chars "SU"⟩).propellantWeight =
      some 3 := by
  obtain h := motorRowTc_field_provenance 1
    ⟨some (chars "m1"), some (chars "Estes"), some (chars "Estes"),
     some (chars "A8-3"), some (chars "A8"), some (chars "A"), some 18, some 70,
     some (chars "SU"), some 4, some 10, some 2, some 1, some 2, none, some 17,
     some 3, some (chars "3"), none, none, false, none⟩
    ⟨chars "A8", chars "A8", 18, 70, none, 0, 16, chars "Estes", chars "SU"⟩
    (chars "A8-3") rfl
  exact ⟨h.1, h.2.2.2.2.2.2.2.1 (by decide), h.2.2.2.2.2.2.2.2.2.2.2.2.1 (by decide),
    h.2.2.2.2.2.2.2.2.2.2.2.2.2.2.1 rfl⟩

/-- Witness for `parse_rasp_all_segmentation_spec`: the zero-thrust
termination clause applied to a concrete open motor and the line `2 0`. -/
theorem parse_rasp_all_segmentation_spec_witness :
    raspStep
        ⟨[], some ⟨chars "A8", chars "A8", 18, 70, none, 3, 16, chars "Estes", chars "SU"⟩,
         [(1, 5)]⟩ (chars "2 0") =
      ⟨[(⟨chars "A8", chars "A8", 18, 70, none, 3, 16, chars "Estes", chars "SU"⟩,
         [(1, 5), (2, 0)])], none, []⟩ :=
  parse_rasp_all_segmentation_spec.1
    ⟨[], some ⟨chars "A8", chars "A8", 18, 70, none, 3, 16, chars "Estes", chars "SU"⟩,
     [(1, 5)]⟩
    ⟨chars "A8", chars "A8", 18, 70, none, 3, 16, chars "Estes", chars "SU"⟩
    (chars "2 0") 2 (chars "2") (chars "0") [] rfl (by decide) (by decide) (by decide)
    (by decide) (by decide)

/-- **C4.** Catalog matching priority: a filename-embedded simfile id whose
mapped motor id exists in the catalog table, on a confirmed-single-motor
file, yields exactly that catalog record (regardless of the fallback
index); only when the exact rule fails is the
`(manufacturer_key, designation)` fallback consulted; and when both fail
the matcher returns no record, in which case the inserted motor row (when
one is inserted) is built from the locally parsed header and
`calculate_thrust_stats`. -/
theorem catalog_match_priority :
    (∀ (env : Env) (fname : Str) (mapping : List (Str × SimfileVal))
        (tok : Str) (info : SimfileInfo) (mid : Str) (meta : TcMeta) (pm pd : Str),
      extract_simfile_info_from_filename fname mapping = some (tok, info) →
      info.motorId = some mid → mid ≠ [] →
      find? env.tcMotors mid = some meta →
      matchCatalogE env true (some info) pm pd = .ok (some meta, some mid)) ∧
    (∀ (env : Env) (isS : Bool) (sinfo : Option SimfileInfo) (pm pd : Str) (m : TcMeta)
        (pw nw : Str) (pws nws : List Str),
      (exactMatch env isS sinfo).1 = none →
      splitWords pm = pw :: pws →
      splitWords (pyStrip (replaceUnderscores pm)) = nw :: nws →
      firstHit env.metadataLookup [pm, pyStrip (replaceUnderscores pm), pw, nw] pd = some m →
      matchCatalogE env isS sinfo pm pd = .ok (some m, m.motorId)) ∧
    (∀ (env : Env) (isS : Bool) (sinfo : Option SimfileInfo) (pm pd : Str)
        (pw nw : Str) (pws nws : List Str),
      (exactMatch env isS sinfo).1 = none →
      splitWords pm = pw :: pws →
      splitWords (pyStrip (replaceUnderscores pm)) = nw :: nws →
      firstHit env.metadataLookup [pm, pyStrip (replaceUnderscores pm), pw, nw] pd = none →
      matchCatalogE env isS sinfo pm pd = .ok (none, (exactMatch env isS sinfo).2)) ∧
    (∀ (st : BuildState) (tid : Option Str) (mfrId : ℕ) (p : ParsedMeta)
        (pts : List (ℚ × ℚ)),
      (motorStep st none tid mfrId p pts).2.motors = st.motors ∨
      (motorStep st none tid mfrId p pts).2.motors =
        st.motors ++ [motorRowLocal mfrId p (calculate_thrust_stats pts)]) := by
  refine ⟨?_, ?_, ?_, ?_⟩
  · intro env fname mapping tok info mid meta pm pd hext hid hne hfind
    have hst : strTruthy info.motorId = true := by
      rw [hid]
      cases mid with
      | nil => exact absurd rfl hne
      | cons a b => rfl
    unfold matchCatalogE exactMatch
    dsimp only
    rw [if_pos ⟨rfl, hst⟩, hid]
    simp only [Option.getD_some]
    rw [hfind]
  · intro env isS sinfo pm pd m pw nw pws nws hex hw1 hw2 hf
    unfold matchCatalogE
    cases hexm : exactMatch env isS sinfo with
    | mk o t =>
      rw [hexm] at hex
      obtain rfl : o = none := hex
      dsimp only
      rw [hw1, hw2]
      dsimp only
      rw [hf]
  · intro env isS sinfo pm pd pw nw pws nws hex hw1 hw2 hf
    unfold matchCatalogE
    cases hexm : exactMatch env isS sinfo with
    | mk o t =>
      rw [hexm] at hex
      obtain rfl : o = none := hex
      dsimp only
      rw [hw1, hw2]
      dsimp only
      rw [hf]
  · intro st tid mfrId p pts
    unfold motorStep
    dsimp only
    cases tid with
    | none =>
      cases hfb : find? st.byKey (mfrId, p.designation) with
      | some i => simp [hfb]
      | none => simp [hfb]
    | some t =>
      by_cases hte : t.isEmpty = true
      · simp only [if_pos hte]
        cases hfb : find? st.byKey (mfrId, p.designation) with
        | some i => simp [hfb]
        | none => simp [hfb]
      · simp only [if_neg hte]
        cases hfa : find? st.byTcId t with
        | some i => simp [hfa]
        | none =>
          simp only [hfa]
          cases hfb : find? st.byKey (mfrId, p.designation) with
          | some i => simp [hfb]
          | none => simp [hfb]

/-- Witness for `catalog_match_priority`: the filename
`Estes_5f4294d20002310000000015.eng` with a mapping entry for its embedded
24-hex token whose motor id is in the catalog table resolves to that
catalog record even though the fallback index is empty. -/
theorem catalog_match_priority_witness :
    matchCatalogE
        ⟨[(chars "m1",
           ⟨some (chars "m1"), none, none, none, none, none, none, none, none, none, none,
            none, none, none, none, none, none, none, none, none, false, none⟩)], [], []⟩
        true (some ⟨some (chars "m1"), none, none, none, none, none⟩)
        (chars "estes") (chars "a8") =
      .ok (some ⟨some (chars "m1"), none, none, none, none, none, none, none, none, none,
            none, none, none, none, none, none, none, none, none, none, false, none⟩,
           some (chars "m1")) :=
  catalog_match_priority.1
    ⟨[(chars "m1",
       ⟨some (chars "m1"), none, none, none, none, none, none, none, none, none, none,
        none, none, none, none, none, none, none, none, none, false, none⟩)], [], []⟩
    (chars "Estes_5f4294d20002310000000015.eng")
    [(chars "5f4294d20002310000000015", .bare (chars "m1"))]
    (chars "5f4294d20002310000000015")
    ⟨some (chars "m1"), none, none, none, none, none⟩
    (chars "m1")
    ⟨some (chars "m1"), none, none, none, none, none, none, none, none, none, none,
     none, none, none, none, none, none, none, none, none, false, none⟩
    (chars "estes") (chars "a8")
    (by decide) rfl (by decide) (by decide)

theorem CurveInv_congr {st st' : BuildState} (hcv : st'.curves = st.curves)
    (hic : st'.insertedCurves = st.insertedCurves)
    (h : CurveInv st) : CurveInv st' := by
  intro s hs
  obtain ⟨h1, h2⟩ := h s hs
  exact ⟨hcv ▸ h1, fun he => hic ▸ h2 (hcv ▸ he)⟩

theorem curveInv_insert (st : BuildState) (row : CurveRow) (n : ℕ)
    (newReg : List (Str × ℕ)) (td : List (ℕ × ℚ × ℚ))
    (hkey : ∀ s, s ≠ [] → row.tcSimfileId = some s →
      find? st.insertedCurves s = none ∧ (find? newReg s).isSome)
    (hmono : ∀ s, (find? st.insertedCurves s).isSome → (find? newReg s).isSome)
    (hinv : CurveInv st) :
    CurveInv { st with
      nextCurveId := n,
      curves := st.curves ++ [row],
      insertedCurves := newReg,
      thrustData := td } := by
  intro s hs
  obtain ⟨hlen, hcov⟩ := hinv s hs
  constructor
  · show ((st.curves ++ [row]).filter (fun c => c.tcSimfileId = some s)).length ≤ 1
    rw [List.filter_append]
    by_cases hk : row.tcSimfileId = some s
    · obtain ⟨hnone, -⟩ := hkey s hs hk
      have hempty : st.curves.filter (fun c => c.tcSimfileId = some s) = [] := by
        rw [List.filter_eq_nil_iff]
        intro c hc hcs
        rw [decide_eq_true_eq] at hcs
        have := hcov ⟨c, hc, hcs⟩
        rw [hnone] at this
        simp at this
      rw [hempty]
      simp [hk]
    · have hrow : List.filter (fun c => c.tcSimfileId = some s) [row] = [] := by
        simp [hk]
      rw [hrow, List.append_nil]
      exact hlen
  · intro he
    show (find? newReg s).isSome
    obtain ⟨c, hc, hcs⟩ := he
    dsimp only at hc
    rw [List.mem_append, List.mem_singleton] at hc
    rcases hc with hc | hc
    · exact hmono s (hcov ⟨c, hc, hcs⟩)
    · subst hc
      exact (hkey s hs hcs).2

theorem curveStep_CurveInv (st : BuildState) (mid : ℕ) (r : FileRecord)
    (hinv : CurveInv st) : CurveInv (curveStep st mid r) := by
  unfold curveStep
  dsimp only
  by_cases hdup : strTruthy (if r.isSingle then r.simfileId else none) = true ∧
      (find? st.insertedCurves
        ((if r.isSingle then r.simfileId else none).getD [])).isSome = true
  · rw [if_pos hdup]
    exact hinv
  · rw [if_neg hdup]
    by_cases htr : strTruthy (if r.isSingle then r.simfileId else none) = true
    · rw [if_pos htr]
      apply curveInv_insert _ _ _ _ _ ?_ ?_ hinv
      · intro s hs hk
        dsimp only at hk
        cases hss : (if r.isSingle then r.simfileId else none) with
        | none => rw [hss] at hk; cases hk
        | some s0 =>
          rw [hss] at hk
          obtain rfl : s0 = s := by injection hk
          have hfind : (find? st.insertedCurves s0).isSome = false := by
            by_contra hcc
            exact hdup ⟨htr, by
              rw [hss]
              simp only [Option.getD_some]
              exact eq_true_of_ne_false hcc⟩
          constructor
          · cases hval : find? st.insertedCurves s0 with
            | none => rfl
            | some v => rw [hval] at hfind; cases hfind
          · simp only [Option.getD_some]
            rw [find?_cons, if_pos rfl]
            rfl
      · intro s hsome
        exact find?_cons_isSome _ _ _ _ hsome
    · rw [if_neg htr]
      apply curveInv_insert _ _ _ _ _ ?_ ?_ hinv
      · intro s hs hk
        dsimp only at hk
        exfalso
        apply htr
        cases hss : (if r.isSingle then r.simfileId else none) with
        | none => rw [hss] at hk; cases hk
        | some s0 =>
          rw [hss] at hk
          obtain rfl : s0 = s := by injection hk
          show (!s0.isEmpty) = true
          cases s0 with
          | nil => exact absurd rfl hs
          | cons a b => rfl
      · intro s hsome
        exact hsome

theorem processRecord_CurveInv (env : Env) (st : BuildState) (r : FileRecord)
    (hinv : CurveInv st) : CurveInv (processRecord env st r) := by
  unfold processRecord
  dsimp only
  split
  · exact hinv
  · cases hm : matchCatalogE env r.isSingle r.simfileInfo
        (pyStrip (pyLower r.parsed.manufacturer))
        (pyStrip (pyLower r.parsed.designation)) with
    | error u => simp only [hm]; exact hinv
    | ok pr =>
      obtain ⟨tcMeta, tid⟩ := pr
      simp only [hm]
      cases hr : resolveCanonical env.mfrLookup
          (pyStrip (pyLower r.parsed.manufacturer))
          (pyStrip (replaceUnderscores (pyStrip (pyLower r.parsed.manufacturer)))) with
      | error u => exact hinv
      | ok canonical =>
        have h1 : CurveInv (getMfrId st (chooseMfr tcMeta canonical).1).2 := by
          obtain ⟨-, -, -, f4, f5, -⟩ := getMfrId_frame st (chooseMfr tcMeta canonical).1
          exact CurveInv_congr f5 f4 hinv
        have h2 : CurveInv (motorStep (getMfrId st (chooseMfr tcMeta canonical).1).2 tcMeta
            tid (getMfrId st (chooseMfr tcMeta canonical).1).1 r.parsed r.points).2 := by
          obtain ⟨g1, g2, -⟩ := motorStep_frame (getMfrId st (chooseMfr tcMeta canonical).1).2
            tcMeta tid (getMfrId st (chooseMfr tcMeta canonical).1).1 r.parsed r.points
          exact CurveInv_congr g1 g2 h1
        exact curveStep_CurveInv _ _ r h2

theorem curveStep_shape (st : BuildState) (mid : ℕ) (r : FileRecord) :
    curveStep st mid r = st ∨
    ∃ row : CurveRow, (curveStep st mid r).curves = st.curves ++ [row] ∧
      row.tcSimfileId = (if r.isSingle then r.simfileId else none) := by
  unfold curveStep
  dsimp only
  by_cases hdup : strTruthy (if r.isSingle then r.simfileId else none) = true ∧
      (find? st.insertedCurves
        ((if r.isSingle then r.simfileId else none).getD [])).isSome = true
  · left; rw [if_pos hdup]
  · right; rw [if_neg hdup]; exact ⟨_, rfl, rfl⟩

theorem curveStep_skip (st : BuildState) (mid : ℕ) (r : FileRecord) (s : Str)
    (hks : (if r.isSingle then r.simfileId else none) = some s) (hs : s ≠ [])
    (hin : (find? st.insertedCurves s).isSome) :
    curveStep st mid r = st := by
  unfold curveStep
  dsimp only
  rw [if_pos]
  refine ⟨?_, ?_⟩
  · rw [hks]
    show (!s.isEmpty) = true
    cases s with
    | nil => exact absurd rfl hs
    | cons a b => rfl
  · rw [hks]
    simp only [Option.getD_some]
    exact hin

theorem curveStep_insert_multi (st : BuildState) (mid : ℕ) (r : FileRecord)
    (hns : r.isSingle = false) :
    ∃ row : CurveRow, (curveStep st mid r).curves = st.curves ++ [row] ∧
      row.tcSimfileId = none := by
  unfold curveStep
  dsimp only
  simp only [hns, Bool.false_eq_true, if_false]
  rw [if_neg (by simp [strTruthy])]
  exact ⟨_, rfl, rfl⟩

theorem matchCatalogE_ne_error (env : Env) (isS : Bool) (sinfo : Option SimfileInfo)
    (pm pd : Str) (h1 : splitWords pm ≠ [])
    (h2 : splitWords (pyStrip (replaceUnderscores pm)) ≠ []) :
    ∃ res, matchCatalogE env isS sinfo pm pd = .ok res := by
  unfold matchCatalogE
  cases hex : exactMatch env isS sinfo with
  | mk o t =>
    cases o with
    | some m => exact ⟨_, rfl⟩
    | none =>
      dsimp only
      cases hw1 : splitWords pm with
      | nil => exact absurd hw1 h1
      | cons pw pws =>
        cases hw2 : splitWords (pyStrip (replaceUnderscores pm)) with
        | nil => exact absurd hw2 h2
        | cons nw nws =>
          dsimp only
          cases hf : firstHit env.metadataLookup
              [pm, pyStrip (replaceUnderscores pm), pw, nw] pd with
          | some m => exact ⟨_, rfl⟩
          | none => exact ⟨_, rfl⟩

theorem resolveCanonical_ne_error (lookup : List (Str × (Str × Str))) (pm nm : Str)
    (h1 : splitWords pm ≠ []) (h2 : splitWords nm ≠ []) :
    ∃ res, resolveCanonical lookup pm nm = .ok res := by
  unfold resolveCanonical
  cases hf1 : find? lookup pm with
  | some c => exact ⟨_, rfl⟩
  | none =>
    cases hf2 : find? lookup nm with
    | some c => exact ⟨_, rfl⟩
    | none =>
      cases hw1 : splitWords pm with
      | nil => exact absurd hw1 h1
      | cons w ws =>
        dsimp only
        cases hf3 : find? lookup w with
        | some c => exact ⟨_, rfl⟩
        | none =>
          cases hw2 : splitWords nm with
          | nil => exact absurd hw2 h2
          | cons w2 ws2 => exact ⟨_, rfl⟩

/-- **C8.** Curve-level deduplication: a curve identity key is assigned
only when the file was confirmed single-motor (every inserted curve row's
key is `if is_single then simfile_id else None`); across a build run at
most one curve row exists per truthy key; a record whose assigned key was
already used inserts neither a thrust_curves row nor any sample points; and
a record from a multi-motor file always inserts a curve row with no key
(never curve-deduplicated). -/
theorem curve_dedup_spec :
    (∀ (env : Env) (mfrSeed : List (Str × ℕ)) (nextMfr : ℕ)
        (records : List FileRecord) (s : Str), s ≠ [] →
      ((buildRun env mfrSeed nextMfr records).curves.filter
        (fun c => c.tcSimfileId = some s)).length ≤ 1) ∧
    (∀ (env : Env) (st : BuildState) (r : FileRecord),
      (processRecord env st r).curves = st.curves ∨
      ∃ row : CurveRow, (processRecord env st r).curves = st.curves ++ [row] ∧
        row.tcSimfileId = (if r.isSingle then r.simfileId else none)) ∧
    (∀ (env : Env) (st : BuildState) (r : FileRecord) (s : Str),
      (if r.isSingle then r.simfileId else none) = some s → s ≠ [] →
      (find? st.insertedCurves s).isSome →
      (processRecord env st r).curves = st.curves ∧
      (processRecord env st r).thrustData = st.thrustData) ∧
    (∀ (env : Env) (st : BuildState) (r : FileRecord),
      r.isSingle = false → r.points ≠ [] →
      splitWords (pyStrip (pyLower r.parsed.manufacturer)) ≠ [] →
      splitWords (pyStrip (replaceUnderscores
        (pyStrip (pyLower r.parsed.manufacturer)))) ≠ [] →
      ∃ row : CurveRow, (processRecord env st r).curves = st.curves ++ [row] ∧
        row.tcSimfileId = none) := by
  refine ⟨?_, ?_, ?_, ?_⟩
  · intro env mfrSeed nextMfr records s hs
    have main : ∀ st, CurveInv st → CurveInv (records.foldl (processRecord env) st) := by
      induction records with
      | nil => intro st h; exact h
      | cons r rest ih => intro st h; exact ih _ (processRecord_CurveInv env st r h)
    have hinit : CurveInv (initState mfrSeed nextMfr) := by
      intro s' hs'
      constructor
      · simp [initState]
      · rintro ⟨c, hc, -⟩
        cases hc
    exact (main _ hinit s hs).1
  · intro env st r
    unfold processRecord
    dsimp only
    split
    · left; rfl
    · cases hm : matchCatalogE env r.isSingle r.simfileInfo
          (pyStrip (pyLower r.parsed.manufacturer))
          (pyStrip (pyLower r.parsed.designation)) with
      | error u => simp [hm]
      | ok pr =>
        obtain ⟨tcMeta, tid⟩ := pr
        simp only [hm]
        cases hr : resolveCanonical env.mfrLookup
            (pyStrip (pyLower r.parsed.manufacturer))
            (pyStrip (replaceUnderscores (pyStrip (pyLower r.parsed.manufacturer)))) with
        | error u => left; rfl
        | ok canonical =>
          dsimp only
          obtain ⟨-, -, -, f4, f5, f6⟩ := getMfrId_frame st (chooseMfr tcMeta canonical).1
          obtain ⟨g1, g2, g3⟩ := motorStep_frame
            (getMfrId st (chooseMfr tcMeta canonical).1).2 tcMeta tid
            (getMfrId st (chooseMfr tcMeta canonical).1).1 r.parsed r.points
          rcases curveStep_shape
              (motorStep (getMfrId st (chooseMfr tcMeta canonical).1).2 tcMeta tid
                (getMfrId st (chooseMfr tcMeta canonical).1).1 r.parsed r.points).2
              (motorStep (getMfrId st (chooseMfr tcMeta canonical).1).2 tcMeta tid
                (getMfrId st (chooseMfr tcMeta canonical).1).1 r.parsed r.points).1 r with
            hcs | hrow
          · left
            rw [hcs, g1, f5]
          · obtain ⟨row, hrow, hkey⟩ := hrow
            right
            exact ⟨row, by rw [hrow, g1, f5], hkey⟩
  · intro env st r s hks hs hin
    unfold processRecord
    dsimp only
    split
    · exact ⟨rfl, rfl⟩
    · cases hm : matchCatalogE env r.isSingle r.simfileInfo
          (pyStrip (pyLower r.parsed.manufacturer))
          (pyStrip (pyLower r.parsed.designation)) with
      | error u => simp [hm]
      | ok pr =>
        obtain ⟨tcMeta, tid⟩ := pr
        simp only [hm]
        cases hr : resolveCanonical env.mfrLookup
            (pyStrip (pyLower r.parsed.manufacturer))
            (pyStrip (replaceUnderscores (pyStrip (pyLower r.parsed.manufacturer)))) with
        | error u => exact ⟨rfl, rfl⟩
        | ok canonical =>
          dsimp only
          obtain ⟨-, -, -, f4, f5, f6⟩ := getMfrId_frame st (chooseMfr tcMeta canonical).1
          obtain ⟨g1, g2, g3⟩ := motorStep_frame
            (getMfrId st (chooseMfr tcMeta canonical).1).2 tcMeta tid
            (getMfrId st (chooseMfr tcMeta canonical).1).1 r.parsed r.points
          have hskip := curveStep_skip
            (motorStep (getMfrId st (chooseMfr tcMeta canonical).1).2 tcMeta tid
              (getMfrId st (chooseMfr tcMeta canonical).1).1 r.parsed r.points).2
            (motorStep (getMfrId st (chooseMfr tcMeta canonical).1).2 tcMeta tid
              (getMfrId st (chooseMfr tcMeta canonical).1).1 r.parsed r.points).1 r s hks hs
            (by rw [g2, f4]; exact hin)
          rw [hskip]
          exact ⟨by rw [g1, f5], by rw [g3, f6]⟩
  · intro env st r hns hpts hw1 hw2
    unfold processRecord
    dsimp only
    have hpe : r.points.isEmpty = false := by
      cases hp : r.points with
      | nil => exact absurd hp hpts
      | cons a b => rfl
    rw [if_neg (by rw [hpe]; exact Bool.false_ne_true)]
    obtain ⟨res, hres⟩ := matchCatalogE_ne_error env r.isSingle r.simfileInfo
      (pyStrip (pyLower r.parsed.manufacturer))
      (pyStrip (pyLower r.parsed.designation)) hw1 hw2
    obtain ⟨tcMeta, tid⟩ := res
    rw [hres]
    dsimp only
    obtain ⟨cres, hcres⟩ := resolveCanonical_ne_error env.mfrLookup
      (pyStrip (pyLower r.parsed.manufacturer))
      (pyStrip (replaceUnderscores (pyStrip (pyLower r.parsed.manufacturer)))) hw1 hw2
    rw [hcres]
    dsimp only
    obtain ⟨-, -, -, f4, f5, f6⟩ := getMfrId_frame st (chooseMfr tcMeta cres).1
    obtain ⟨g1, g2, g3⟩ := motorStep_frame
      (getMfrId st (chooseMfr tcMeta cres).1).2 tcMeta tid
      (getMfrId st (chooseMfr tcMeta cres).1).1 r.parsed r.points
    obtain ⟨row, hrow, hkey⟩ := curveStep_insert_multi
      (motorStep (getMfrId st (chooseMfr tcMeta cres).1).2 tcMeta tid
        (getMfrId st (chooseMfr tcMeta cres).1).1 r.parsed r.points).2
      (motorStep (getMfrId st (chooseMfr tcMeta cres).1).2 tcMeta tid
        (getMfrId st (chooseMfr tcMeta cres).1).1 r.parsed r.points).1 r hns
    exact ⟨row, by rw [hrow, g1, f5], hkey⟩

/-- Witness for `curve_dedup_spec`: the skip clause on a single-motor
record whose simfile key is already registered — no curve row and no sample
points are added. -/
theorem curve_dedup_spec_witness :
    (processRecord ⟨[], [], []⟩
        ⟨1, 2, 1, [], [], [], [(chars "ab", 1)], [], [], []⟩
        ⟨⟨chars "A8", chars "A8", 18, 70, none, 3, 16, chars "Estes", chars "SU"⟩,
         [(0, 5)], true, some (chars "ab"), none, chars "RASP"⟩).curves =
      (⟨1, 2, 1, [], [], [], [(chars "ab", 1)], [], [], []⟩ : BuildState).curves ∧
    (processRecord ⟨[], [], []⟩
        ⟨1, 2, 1, [], [], [], [(chars "ab", 1)], [], [], []⟩
        ⟨⟨chars "A8", chars "A8", 18, 70, none, 3, 16, chars "Estes", chars "SU"⟩,
         [(0, 5)], true, some (chars "ab"), none, chars "RASP"⟩).thrustData =
      (⟨1, 2, 1, [], [], [], [(chars "ab", 1)], [], [], []⟩ : BuildState).thrustData :=
  curve_dedup_spec.2.2.1 ⟨[], [], []⟩
    ⟨1, 2, 1, [], [], [], [(chars "ab", 1)], [], [], []⟩
    ⟨⟨chars "A8", chars "A8", 18, 70, none, 3, 16, chars "Estes", chars "SU"⟩,
     [(0, 5)], true, some (chars "ab"), none, chars "RASP"⟩
    (chars "ab") rfl (by decide) (by decide)

/-- **C9 counterexample.** The claim fails as stated: for a parsed record
whose raw manufacturer token (`"xyzzy corp"`) matches none of the four
lookup variants (the alias table here is empty, so every variant misses),
but whose catalog match supplies a manufacturer name, resolution uses the
catalog name `AeroTech` — not the `Unknown`/`UNK` sentinel. -/
theorem mfr_unknown_fallback_counterexample :
    resolveCanonical ([] : List (Str × (Str × Str))) (chars "xyzzy corp")
        (chars "xyzzy corp") = .ok none ∧
    chooseMfr
        (some ⟨some (chars "m1"), some (chars "AeroTech"), some (chars "AeroTech"), none,
          none, none, none, none, none, none, none, none, none, none, none, none, none,
          none, none, none, false, none⟩)
        none =
      (chars "AeroTech", some (chars "AeroTech")) ∧
    (chars "AeroTech", some (chars "AeroTech")) ≠
      (chars "Unknown", some (chars "UNK")) := by
  refine ⟨rfl, by decide, by decide⟩

theorem chooseMfr_unknown (tcMeta : Option TcMeta)
    (hnomfr : ∀ tc, tcMeta = some tc → strTruthy tc.manufacturer = false) :
    chooseMfr tcMeta none = (chars "Unknown", some (chars "UNK")) := by
  cases tcMeta with
  | none => rfl
  | some tc =>
    unfold chooseMfr
    dsimp only
    rw [hnomfr tc rfl]
    simp

theorem motorStep_mfrMap (st : BuildState) (tcMeta : Option TcMeta) (tid : Option Str)
    (mfrId : ℕ) (p : ParsedMeta) (pts : List (ℚ × ℚ)) :
    ((motorStep st tcMeta tid mfrId p pts).2).mfrNameToId = st.mfrNameToId := by
  unfold motorStep
  dsimp only
  split <;> simp

theorem curveStep_mfrMap (st : BuildState) (mid : ℕ) (r : FileRecord) :
    (curveStep st mid r).mfrNameToId = st.mfrNameToId := by
  unfold curveStep
  dsimp only
  split <;> split <;> simp

theorem getMfrId_registers (st : BuildState) (n : Str) :
    (find? ((getMfrId st n).2).mfrNameToId n).isSome := by
  unfold getMfrId
  cases h : find? st.mfrNameToId n with
  | some i => simp [h]
  | none => simp [h, find?_cons]

/-- **C9 (amended).** For every parsed record whose catalog match (if any)
supplies no non-empty manufacturer name and whose raw manufacturer token
matches none of the four lookup variants, manufacturer resolution falls
back to the sentinel `Unknown`/`UNK` (a warning is printed at that point in
the source), and the record is still inserted: `Unknown` is registered in
the manufacturer map and a thrust-curve row is appended (shown here for a
multi-motor-file record, which cannot be curve-deduplicated). -/
theorem mfr_unknown_fallback_amended (env : Env) (st : BuildState) (r : FileRecord)
    (tcMeta : Option TcMeta) (tid : Option Str)
    (hns : r.isSingle = false) (hpts : r.points ≠ [])
    (hm : matchCatalogE env r.isSingle r.simfileInfo
      (pyStrip (pyLower r.parsed.manufacturer))
      (pyStrip (pyLower r.parsed.designation)) = .ok (tcMeta, tid))
    (hnomfr : ∀ tc, tcMeta = some tc → strTruthy tc.manufacturer = false)
    (hcanon : resolveCanonical env.mfrLookup
      (pyStrip (pyLower r.parsed.manufacturer))
      (pyStrip (replaceUnderscores (pyStrip (pyLower r.parsed.manufacturer)))) = .ok none) :
    chooseMfr tcMeta none = (chars "Unknown", some (chars "UNK")) ∧
    (find? ((processRecord env st r).mfrNameToId) (chars "Unknown")).isSome ∧
    ∃ row : CurveRow, (processRecord env st r).curves = st.curves ++ [row] := by
  have hchoose := chooseMfr_unknown tcMeta hnomfr
  refine ⟨hchoose, ?_, ?_⟩
  all_goals
    unfold processRecord
    dsimp only
  all_goals
    have hpe : r.points.isEmpty = false := by
      cases hp : r.points with
      | nil => exact absurd hp hpts
      | cons a b => rfl
    rw [if_neg (by rw [hpe]; exact Bool.false_ne_true), hm]
    dsimp only
    rw [hcanon]
    dsimp only
  · rw [curveStep_mfrMap, motorStep_mfrMap]
    have : (chooseMfr tcMeta none).1 = chars "Unknown" := by rw [hchoose]
    rw [this]
    exact getMfrId_registers st (chars "Unknown")
  · obtain ⟨-, -, -, -, f5, -⟩ := getMfrId_frame st (chooseMfr tcMeta none).1
    obtain ⟨g1, -, -⟩ := motorStep_frame
      (getMfrId st (chooseMfr tcMeta none).1).2 tcMeta tid
      (getMfrId st (chooseMfr tcMeta none).1).1 r.parsed r.points
    obtain ⟨row, hrow, -⟩ := curveStep_insert_multi
      (motorStep (getMfrId st (chooseMfr tcMeta none).1).2 tcMeta tid
        (getMfrId st (chooseMfr tcMeta none).1).1 r.parsed r.points).2
      (motorStep (getMfrId st (chooseMfr tcMeta none).1).2 tcMeta tid
        (getMfrId st (chooseMfr tcMeta none).1).1 r.parsed r.points).1 r hns
    exact ⟨row, by rw [hrow, g1, f5]⟩

/-- Witness for `mfr_unknown_fallback_amended`: a record with manufacturer
token `Xyzzy Corp`, no catalog data and an empty alias table resolves to
`Unknown`/`UNK` and still gets its curve row. -/
theorem mfr_unknown_fallback_amended_witness :
    chooseMfr none none = (chars "Unknown", some (chars "UNK")) ∧
    (find? ((processRecord ⟨[], [], []⟩ (initState [] 1)
        ⟨⟨chars "A8", chars "A8", 18, 70, none, 3, 16, chars "Xyzzy Corp", chars "SU"⟩,
         [(0, 5)], false, none, none, chars "RASP"⟩).mfrNameToId) (chars "Unknown")).isSome ∧
    ∃ row : CurveRow,
      (processRecord ⟨[], [], []⟩ (initState [] 1)
        ⟨⟨chars "A8", chars "A8", 18, 70, none, 3, 16, chars "Xyzzy Corp", chars "SU"⟩,
         [(0, 5)], false, none, none, chars "RASP"⟩).curves =
        (initState [] 1).curves ++ [row] :=
  mfr_unknown_fallback_amended ⟨[], [], []⟩ (initState [] 1)
    ⟨⟨chars "A8", chars "A8", 18, 70, none, 3, 16, chars "Xyzzy Corp", chars "SU"⟩,
     [(0, 5)], false, none, none, chars "RASP"⟩
    none none rfl (by decide) rfl (fun tc h => by cases h) rfl
